import Mathlib

/-!
# graphqlfuzz: a verification development of `graphfuzz.go`

A shallow embedding of the program in `graphfuzz.go`.

* Go `string` values are modelled by `String` (valid UTF-8 text); lengths that
  the Go code measures in bytes are measured with `String.utf8ByteSize`.
* Go slices are modelled by `List`; a `nil` slice and an empty slice are both `[]`.
  Where the program could tell a slice from the list of its elements, in the
  decoder of `encoding/json`, a slice keeps the stale elements of its backing
  array (`Slice`).
* Go `error` values are modelled by their message (`String`), results of the
  shape `(T, error)` by `Except String T`.
* The outside world (files, the network, standard output) is explicit: files are
  a read-only table, the network is an oracle threading a state of type `σ`,
  and every observable action of the program is recorded in a `World`.
-/

namespace GraphQLFuzz

/-! ## Data model (`graphfuzz.go`, lines 29-59) -/

/-- Go `GraphQLFieldType`: `OfType` is a nilable pointer to another field type. -/
inductive GraphQLFieldType where
  | mk (kind : String) (name : String) (ofType : Option GraphQLFieldType)
  deriving Repr

namespace GraphQLFieldType

/-- The `Kind` member. -/
def kind : GraphQLFieldType → String
  | mk k _ _ => k

/-- The `Name` member. -/
def name : GraphQLFieldType → String
  | mk _ n _ => n

/-- The `OfType` member. -/
def ofType : GraphQLFieldType → Option GraphQLFieldType
  | mk _ _ o => o

/-- The Go zero value of the struct. -/
def zero : GraphQLFieldType := mk "" "" none

/-- Equality of field types is decidable, member by member along the `OfType` chain. -/
def decEq : (a b : GraphQLFieldType) → Decidable (a = b)
  | mk k n none, mk k2 n2 none =>
      if h : k = k2 ∧ n = n2 then isTrue (by rw [h.1, h.2])
      else isFalse (by intro e; injection e with e1 e2; exact h ⟨e1, e2⟩)
  | mk k n (some o), mk k2 n2 (some o2) =>
      match decEq o o2 with
      | isTrue ho =>
          if h : k = k2 ∧ n = n2 then isTrue (by rw [h.1, h.2, ho])
          else isFalse (by intro e; injection e with e1 e2; exact h ⟨e1, e2⟩)
      | isFalse ho => isFalse (by intro e; injection e with e1 e2 e3; injection e3 with e4; exact ho e4)
  | mk _ _ none, mk _ _ (some _) => isFalse (by intro e; injection e with e1 e2 e3; cases e3)
  | mk _ _ (some _), mk _ _ none => isFalse (by intro e; injection e with e1 e2 e3; cases e3)

instance : DecidableEq GraphQLFieldType := decEq

end GraphQLFieldType

/-- Go `GraphQLFieldArg`. -/
structure GraphQLFieldArg where
  name : String
  type : GraphQLFieldType
  deriving Repr, DecidableEq

/-- Go `GraphQLField`. -/
structure GraphQLField where
  name : String
  args : List GraphQLFieldArg
  type : GraphQLFieldType
  deriving Repr, DecidableEq

/-- Go `GraphQLType`. -/
structure GraphQLType where
  kind : String
  name : String
  fields : List GraphQLField
  deriving Repr, DecidableEq

/-! ## The fragments of `fmt` and `strings` the program uses -/

/-- Go `fmt.Sprintf` restricted to string operands, on the characters of the
format. Ordinary characters are copied, `%%` is a percent sign, `%s` and `%v`
consume the next operand and copy it unchanged. The error renderings of `fmt`
are kept: a missing operand, a lone trailing `%`, operands left over at the end.
Flags, widths and the verbs other than `s` and `v` are outside the modelled
fragment (no format of the program has any) and are rendered the way `fmt`
renders a verb it does not know. -/
def sprintfAux : List Char → List String → String
  | [], [] => ""
  | [], a :: as =>
      "%!(EXTRA " ++ String.intercalate ", " ((a :: as).map fun x => "string=" ++ x) ++ ")"
  | ['%'], as => "%!(NOVERB)" ++ sprintfAux [] as
  | '%' :: '%' :: rest, as => "%" ++ sprintfAux rest as
  | '%' :: c :: rest, [] => "%!" ++ String.singleton c ++ "(MISSING)" ++ sprintfAux rest []
  | '%' :: c :: rest, a :: as =>
      if c = 's' ∨ c = 'v' then a ++ sprintfAux rest as
      else "%!" ++ String.singleton c ++ "(string=" ++ a ++ ")" ++ sprintfAux rest as
  | c :: rest, as => String.singleton c ++ sprintfAux rest as

/-- Go `fmt.Sprintf(format, operands...)` with string operands. -/
def Sprintf (format : String) (operands : List String) : String :=
  sprintfAux format.toList operands

/-- Go `strings.Join`: the empty string for no element, the element itself for
one, otherwise the first element followed by `sep` and the next element, for
each further element in turn. -/
def Join : List String → String → String
  | [], _ => ""
  | [e], _ => e
  | e :: rest, sep => rest.foldl (fun b s => b ++ sep ++ s) e

/-! ## Query construction (`fuzzGraphQL`, lines 97-103) -/

/-- Lines 98-101: `fuzzedArgs := make([]string, len(field.Args))` followed by the
loop that stores the formatted argument at index `i`. -/
def fuzzedArgs (field : GraphQLField) (fuzzString : String) : List String :=
  (field.args.enum.foldl
    (fun (acc : List String) (p : Nat × GraphQLFieldArg) =>
      acc.set p.1 (Sprintf "%s: \"%s\"" [p.2.name, fuzzString]))
    (List.replicate field.args.length ""))

/-- Line 103: the query string built for type `t`, field `field` and the
current fuzz string. -/
def fuzzedQuery (t : GraphQLType) (field : GraphQLField) (fuzzString : String) : String :=
  Sprintf "\x7b %s(%s) \x7b %s \x7d \x7d"
    [t.name, Join (fuzzedArgs field fuzzString) ", ", field.name]


/-! ## JSON values and the part of `encoding/json` the program relies on -/

/-- A parsed JSON document. Object members keep their order and their
duplicates, as the decoder of `encoding/json` meets them one after the other. -/
inductive JSON where
  | null
  | bool (b : Bool)
  | number (literal : String)
  | string (s : String)
  | array (elems : List JSON)
  | object (members : List (String × JSON))
  deriving Repr

namespace JSON

/-- The `Value` member of Go `json.UnmarshalTypeError` for a JSON value. -/
def valueName : JSON → String
  | null => "null"
  | bool _ => "bool"
  | number _ => "number"
  | string _ => "string"
  | array _ => "array"
  | object _ => "object"

/-- The literal `null`. -/
def isNull : JSON → Bool
  | null => true
  | _ => false

end JSON

/-- The message of a `json.UnmarshalTypeError`. Only the JSON kind in it is that
of the library; the rest of the text is indicative: the library names the full
Go type, or the path of the struct member, depending on its version. No
statement below depends on the text. -/
def typeError (v : JSON) (goType : String) : String :=
  "json: cannot unmarshal " ++ v.valueName ++ " into Go value of type " ++ goType

/-- Go `decodeState.saveError`: only the first error of a decoding run is kept. -/
def saveError (saved : Option String) (e : String) : Option String :=
  match saved with
  | some x => some x
  | none => some e

/-- The case folding `encoding/json` applies to one code point of an object key,
on the code points that can fold to an ASCII letter: the lower-case ASCII
letters, the Kelvin sign (folds with `k`) and the long s (folds with `s`). Any
other code point belongs to a folding class without an ASCII member and is left
alone, which cannot make a key equal to an ASCII member name. -/
def foldRune (c : Char) : Char :=
  if 'a' ≤ c ∧ c ≤ 'z' then Char.ofNat (c.toNat - 32)
  else if c = Char.ofNat 0x212A then 'K'
  else if c = Char.ofNat 0x17F then 'S'
  else c

/-- Go `foldName`: two names match case-insensitively when their folds are equal. -/
def foldName (s : String) : String := String.mk (s.toList.map foldRune)

/-- The struct member an object key is decoded into: the member whose JSON name
is exactly the key, otherwise the first member whose name matches the key
case-insensitively, otherwise none (the value of the key is then skipped). -/
def findField (fields : List String) (key : String) : Option String :=
  match fields.find? (fun f => f == key) with
  | some f => some f
  | none => fields.find? (fun f => foldName f == foldName key)

/-- Decoding a JSON value into a Go `string`: a JSON string is stored, `null`
leaves the current value, any other value is a type error. -/
def decodeString : JSON → String → Option String → String × Option String
  | .string s, _, err => (s, err)
  | .null, cur, err => (cur, err)
  | v, cur, err => (cur, saveError err (typeError v "string"))

mutual
/-- Decoding a JSON value into a `GraphQLFieldType` struct holding `cur`: an
object is decoded member by member, `null` leaves the struct, any other value is
a type error. -/
def decodeFieldType : JSON → GraphQLFieldType → Option String → GraphQLFieldType × Option String
  | .null, cur, err => (cur, err)
  | .object ms, cur, err => decodeFieldTypeMembers ms cur err
  | .bool b, cur, err => (cur, saveError err (typeError (.bool b) "main.GraphQLFieldType"))
  | .number n, cur, err => (cur, saveError err (typeError (.number n) "main.GraphQLFieldType"))
  | .string s, cur, err => (cur, saveError err (typeError (.string s) "main.GraphQLFieldType"))
  | .array a, cur, err => (cur, saveError err (typeError (.array a) "main.GraphQLFieldType"))
/-- The members of an object decoded into a `GraphQLFieldType`, in order. For
`ofType`, a pointer: `null` sets it to nil, any other value is decoded into the
struct it points to, allocated first when the pointer is nil. -/
def decodeFieldTypeMembers :
    List (String × JSON) → GraphQLFieldType → Option String → GraphQLFieldType × Option String
  | [], cur, err => (cur, err)
  | (key, v) :: rest, .mk kind name ofType, err =>
      match findField ["kind", "name", "ofType"] key with
      | some "kind" =>
          decodeFieldTypeMembers rest (.mk (decodeString v kind err).1 name ofType)
            (decodeString v kind err).2
      | some "name" =>
          decodeFieldTypeMembers rest (.mk kind (decodeString v name err).1 ofType)
            (decodeString v name err).2
      | some "ofType" =>
          if v.isNull then decodeFieldTypeMembers rest (.mk kind name none) err
          else
            decodeFieldTypeMembers rest
              (.mk kind name (some (decodeFieldType v (ofType.getD .zero) err).1))
              (decodeFieldType v (ofType.getD .zero) err).2
      | _ => decodeFieldTypeMembers rest (.mk kind name ofType) err
end

/-- One object member decoded into a `GraphQLFieldType`: the body of the loop
`decodeFieldTypeMembers`, which is shown below to be the loop over this body. -/
def decodeFieldTypeMember (s : GraphQLFieldType × Option String) (m : String × JSON) :
    GraphQLFieldType × Option String :=
  match findField ["kind", "name", "ofType"] m.1 with
  | some "kind" =>
      (.mk (decodeString m.2 s.1.kind s.2).1 s.1.name s.1.ofType, (decodeString m.2 s.1.kind s.2).2)
  | some "name" =>
      (.mk s.1.kind (decodeString m.2 s.1.name s.2).1 s.1.ofType, (decodeString m.2 s.1.name s.2).2)
  | some "ofType" =>
      if m.2.isNull then (.mk s.1.kind s.1.name none, s.2)
      else
        (.mk s.1.kind s.1.name (some (decodeFieldType m.2 (s.1.ofType.getD .zero) s.2).1),
          (decodeFieldType m.2 (s.1.ofType.getD .zero) s.2).2)
  | _ => s

/-- A Go slice as the decoder holds it: its elements, and the elements its
backing array still has right past its length, left there when an earlier,
longer content was cut. Past these the backing array, or a newly allocated one,
holds zero values. -/
structure Slice (α : Type) where
  elems : List α
  stale : List α
  deriving Repr, DecidableEq

/-- The nil slice. -/
def Slice.nil {α : Type} : Slice α := ⟨[], []⟩

/-- The elements of a JSON array decoded over the backing array `backing` of a
slice (its elements, then its stale elements): element `i` is decoded into the
element the backing array has at index `i`, or into a zero value past it. -/
def decodeElems {α : Type} (dec : JSON → α → Option String → α × Option String) (zero : α) :
    List JSON → List α → Option String → List α × Option String
  | [], _, err => ([], err)
  | e :: es, backing, err =>
      ((dec e (backing.headD zero) err).1 ::
          (decodeElems dec zero es backing.tail (dec e (backing.headD zero) err).2).1,
        (decodeElems dec zero es backing.tail (dec e (backing.headD zero) err).2).2)

/-- Decoding a JSON value into a Go slice. An array is decoded element by
element over the backing array and the length is set to the number of elements,
what the backing array holds past it becoming stale; an empty array gives a new
empty slice. `null` sets the slice to nil, any other value is a type error. -/
def decodeSlice {α : Type} (dec : JSON → α → Option String → α × Option String) (zero : α)
    (goType : String) : JSON → Slice α → Option String → Slice α × Option String
  | .array es, cur, err =>
      (⟨(decodeElems dec zero es (cur.elems ++ cur.stale) err).1,
          if es.isEmpty then [] else (cur.elems ++ cur.stale).drop es.length⟩,
        (decodeElems dec zero es (cur.elems ++ cur.stale) err).2)
  | .null, _, err => (Slice.nil, err)
  | v, cur, err => (cur, saveError err (typeError v goType))

/-- The Go zero value of `GraphQLFieldArg`. -/
def GraphQLFieldArg.zero : GraphQLFieldArg := ⟨"", .zero⟩

/-- The Go zero value of `GraphQLField`. -/
def GraphQLField.zero : GraphQLField := ⟨"", [], .zero⟩

/-- The Go zero value of `GraphQLType`. -/
def GraphQLType.zero : GraphQLType := ⟨"", "", []⟩

/-- A Go `GraphQLField` as the decoder holds it, `Args` with its backing array. -/
structure RawField where
  name : String
  args : Slice GraphQLFieldArg
  type : GraphQLFieldType
  deriving Repr, DecidableEq

/-- The Go zero value of `GraphQLField`, as the decoder holds it. -/
def RawField.zero : RawField := ⟨"", Slice.nil, .zero⟩

/-- The field as the rest of the program sees it: a slice shows the elements
below its length only. -/
def RawField.toField (r : RawField) : GraphQLField := ⟨r.name, r.args.elems, r.type⟩

/-- A Go `GraphQLType` as the decoder holds it, `Fields` with its backing array. -/
structure RawType where
  kind : String
  name : String
  fields : Slice RawField
  deriving Repr, DecidableEq

/-- The Go zero value of `GraphQLType`, as the decoder holds it. -/
def RawType.zero : RawType := ⟨"", "", Slice.nil⟩

/-- The type as the rest of the program sees it. -/
def RawType.toType (r : RawType) : GraphQLType :=
  ⟨r.kind, r.name, r.fields.elems.map RawField.toField⟩

/-- One object member decoded into a `GraphQLFieldArg` (members `name`, `type`). -/
def decodeFieldArgMember (s : GraphQLFieldArg × Option String) (m : String × JSON) :
    GraphQLFieldArg × Option String :=
  match findField ["name", "type"] m.1 with
  | some "name" => ({ s.1 with name := (decodeString m.2 s.1.name s.2).1 }, (decodeString m.2 s.1.name s.2).2)
  | some "type" => ({ s.1 with type := (decodeFieldType m.2 s.1.type s.2).1 }, (decodeFieldType m.2 s.1.type s.2).2)
  | _ => s

/-- Decoding a JSON value into a `GraphQLFieldArg` struct holding `cur`. -/
def decodeFieldArg : JSON → GraphQLFieldArg → Option String → GraphQLFieldArg × Option String
  | .null, cur, err => (cur, err)
  | .object ms, cur, err => ms.foldl decodeFieldArgMember (cur, err)
  | v, cur, err => (cur, saveError err (typeError v "main.GraphQLFieldArg"))

/-- One object member decoded into a `GraphQLField` (members `name`, `args`, `type`). -/
def decodeFieldMember (s : RawField × Option String) (m : String × JSON) :
    RawField × Option String :=
  match findField ["name", "args", "type"] m.1 with
  | some "name" => ({ s.1 with name := (decodeString m.2 s.1.name s.2).1 }, (decodeString m.2 s.1.name s.2).2)
  | some "args" =>
      ({ s.1 with args := (decodeSlice decodeFieldArg .zero "[]main.GraphQLFieldArg" m.2 s.1.args s.2).1 },
        (decodeSlice decodeFieldArg .zero "[]main.GraphQLFieldArg" m.2 s.1.args s.2).2)
  | some "type" => ({ s.1 with type := (decodeFieldType m.2 s.1.type s.2).1 }, (decodeFieldType m.2 s.1.type s.2).2)
  | _ => s

/-- Decoding a JSON value into a `GraphQLField` struct holding `cur`. -/
def decodeField : JSON → RawField → Option String → RawField × Option String
  | .null, cur, err => (cur, err)
  | .object ms, cur, err => ms.foldl decodeFieldMember (cur, err)
  | v, cur, err => (cur, saveError err (typeError v "main.GraphQLField"))

/-- One object member decoded into a `GraphQLType` (members `kind`, `name`, `fields`). -/
def decodeTypeMember (s : RawType × Option String) (m : String × JSON) :
    RawType × Option String :=
  match findField ["kind", "name", "fields"] m.1 with
  | some "kind" => ({ s.1 with kind := (decodeString m.2 s.1.kind s.2).1 }, (decodeString m.2 s.1.kind s.2).2)
  | some "name" => ({ s.1 with name := (decodeString m.2 s.1.name s.2).1 }, (decodeString m.2 s.1.name s.2).2)
  | some "fields" =>
      ({ s.1 with fields := (decodeSlice decodeField .zero "[]main.GraphQLField" m.2 s.1.fields s.2).1 },
        (decodeSlice decodeField .zero "[]main.GraphQLField" m.2 s.1.fields s.2).2)
  | _ => s

/-- Decoding a JSON value into a `GraphQLType` struct holding `cur`. -/
def decodeType : JSON → RawType → Option String → RawType × Option String
  | .null, cur, err => (cur, err)
  | .object ms, cur, err => ms.foldl decodeTypeMember (cur, err)
  | v, cur, err => (cur, saveError err (typeError v "main.GraphQLType"))

/-- Decoding a JSON value into a struct with the single member `name`, itself
decoded by `dec` (the anonymous structs of `readSchemaFromFile`, lines 73-79). -/
def decodeWrapper {α : Type} (name goType : String)
    (dec : JSON → α → Option String → α × Option String) :
    JSON → α → Option String → α × Option String
  | .null, cur, err => (cur, err)
  | .object ms, cur, err =>
      ms.foldl (fun s m => if findField [name] m.1 = some name then dec m.2 s.1 s.2 else s) (cur, err)
  | v, cur, err => (cur, saveError err (typeError v goType))

/-- Decoding a JSON document into the variable `schema` of `readSchemaFromFile`
(lines 73-79), reduced to its only leaf `schema.Data.Schema.Types`. -/
def decodeSchema : JSON → Slice RawType → Option String → Slice RawType × Option String :=
  decodeWrapper "data" "struct" <| decodeWrapper "__schema" "struct" <|
    decodeWrapper "types" "struct" <| decodeSlice decodeType .zero "[]main.GraphQLType"

/-- Go `GraphQLResponse`: both members are `interface{}` values, modelled by the
JSON value they were decoded from (`null` for a nil interface). -/
structure GraphQLResponse where
  data : JSON
  errors : JSON
  deriving Repr

/-- One object member decoded into a `GraphQLResponse` (members `data`, `errors`):
a value decoded into an empty interface replaces what the interface held. -/
def decodeResponseMember (s : GraphQLResponse × Option String) (m : String × JSON) :
    GraphQLResponse × Option String :=
  match findField ["data", "errors"] m.1 with
  | some "data" => ({ s.1 with data := m.2 }, s.2)
  | some "errors" => ({ s.1 with errors := m.2 }, s.2)
  | _ => s

/-- Decoding a JSON value into a `GraphQLResponse` struct holding `cur`. -/
def decodeResponse : JSON → GraphQLResponse → Option String → GraphQLResponse × Option String
  | .null, cur, err => (cur, err)
  | .object ms, cur, err => ms.foldl decodeResponseMember (cur, err)
  | v, cur, err => (cur, saveError err (typeError v "main.GraphQLResponse"))

/-- Go `json.Unmarshal(bytes, &x)` for a variable `x` holding `zero`, in two
halves: `parse` is the syntax check and scan of the text (a syntax error leaves
`x` untouched), `dec` the decoding of the scanned value into `x`, after which
the first type error met, if any, is returned. -/
def Unmarshal {α : Type} (parse : String → Except String JSON)
    (dec : JSON → α → Option String → α × Option String) (zero : α) (bytes : String) :
    α × Option String :=
  match parse bytes with
  | .error e => (zero, some e)
  | .ok v => dec v zero none

/-! ## The outside world -/

/-- An input stream (an open file, an HTTP response body): the text it delivers,
and the error a read reports once the text is delivered, if any (`none` is a
clean end of file). -/
structure Reader where
  content : String
  readErr : Option String
  deriving Repr, DecidableEq

/-- Go `ioutil.ReadAll`: the whole content, or the read error. -/
def ReadAll (r : Reader) : Except String String :=
  match r.readErr with
  | some e => .error e
  | none => .ok r.content

/-- What the program does to the outside world, in order. -/
inductive Event where
  /-- One call of `fmt.Println` or `fmt.Printf`: the text written to standard output. -/
  | stdout (text : String)
  /-- One call of `flag.Usage`. -/
  | usage
  /-- One call of `os.Open`. -/
  | openFile (path : String)
  /-- One call of `sendQuery`. -/
  | sendQuery (url query : String)
  /-- One call of `http.Post`. -/
  | httpPost (url contentType body : String)
  deriving Repr, DecidableEq

/-- The environment the program runs in. The network is an oracle over a state
of type `σ`; it is assumed to answer every request (the program sets no
time-out). -/
structure Env (σ : Type) where
  /-- Go `os.Open` followed by the reads of the file. -/
  openFile : String → Except String Reader
  /-- The syntax half of `json.Unmarshal`. -/
  parseJSON : String → Except String JSON
  /-- Go `json.Marshal(GraphQLRequest{Query: query})`. -/
  marshalRequest : String → Except String String
  /-- Go `http.Post(url, contentType, body)`. -/
  httpPost : String → String → String → σ → Except String Reader × σ
  /-- The rendering of a `*GraphQLResponse` by the verb `%v`. -/
  fmtResponse : GraphQLResponse → String

/-- The state of a run: the state of the network and the events so far. -/
structure World (σ : Type) where
  net : σ
  trace : List Event

/-- Append one event to the trace. -/
def World.emit {σ : Type} (w : World σ) (e : Event) : World σ :=
  { w with trace := w.trace ++ [e] }

/-- The queries passed to `sendQuery`, in order. -/
def queriesOf (trace : List Event) : List String :=
  trace.filterMap fun e => match e with
    | .sendQuery _ query => some query
    | _ => none

/-- The texts written to standard output, in order. -/
def stdoutOf (trace : List Event) : List String :=
  trace.filterMap fun e => match e with
    | .stdout text => some text
    | _ => none

/-! ## `sendQuery` (lines 116-141) -/

/-- Go `sendQuery`. -/
def sendQuery {σ : Type} (env : Env σ) (url query : String) (w : World σ) :
    Except String GraphQLResponse × World σ :=
  let w1 := w.emit (.sendQuery url query)
  match env.marshalRequest query with
  | .error err => (.error ("error marshaling request: " ++ err), w1)
  | .ok requestBody =>
      let w2 : World σ :=
        { net := (env.httpPost url "application/json" requestBody w1.net).2,
          trace := w1.trace ++ [.httpPost url "application/json" requestBody] }
      match (env.httpPost url "application/json" requestBody w1.net).1 with
      | .error err => (.error ("error sending request: " ++ err), w2)
      | .ok body =>
          match ReadAll body with
          | .error err => (.error ("error reading response body: " ++ err), w2)
          | .ok responseBody =>
              match (Unmarshal env.parseJSON decodeResponse ⟨.null, .null⟩ responseBody).2 with
              | some err => (.error ("error unmarshalling response: " ++ err), w2)
              | none =>
                  (.ok (Unmarshal env.parseJSON decodeResponse ⟨.null, .null⟩ responseBody).1, w2)

/-! ## `fuzzGraphQL` (lines 87-114) -/

/-- Lines 104-109: send one query and report on it. -/
def fuzzOne {σ : Type} (env : Env σ) (url : String) (t : GraphQLType) (field : GraphQLField)
    (w : World σ) (fuzzString : String) : World σ :=
  match (sendQuery env url (fuzzedQuery t field fuzzString) w).1 with
  | .error err =>
      (sendQuery env url (fuzzedQuery t field fuzzString) w).2.emit
        (.stdout ("Error sending fuzzed request: " ++ err ++ "\n"))
  | .ok response =>
      (sendQuery env url (fuzzedQuery t field fuzzString) w).2.emit
        (.stdout (Sprintf "Fuzzed Query: %s\nResponse: %v\n"
          [fuzzedQuery t field fuzzString, env.fmtResponse response]))

/-- Lines 91-94: the list of fuzz strings, the word list unless it is empty. -/
def fuzzList (wordlist : List String) : List String :=
  if wordlist.length > 0 then wordlist else [""]

/-- Lines 90-111: the loop body for one field. -/
def fuzzField {σ : Type} (env : Env σ) (url : String) (wordlist : List String) (t : GraphQLType)
    (w : World σ) (field : GraphQLField) : World σ :=
  (fuzzList wordlist).foldl (fuzzOne env url t field) w

/-- Lines 88-113: the loop body for one type. -/
def fuzzType {σ : Type} (env : Env σ) (url : String) (wordlist : List String)
    (w : World σ) (t : GraphQLType) : World σ :=
  if t.kind == "OBJECT" && t.name != "Query" && t.name != "Mutation" then
    t.fields.foldl (fuzzField env url wordlist t) w
  else w

/-- Go `fuzzGraphQL`. -/
def fuzzGraphQL {σ : Type} (env : Env σ) (url : String) (types : List GraphQLType)
    (wordlist : List String) (w : World σ) : World σ :=
  types.foldl (fuzzType env url wordlist) w

/-! ## `readSchemaFromFile` (lines 61-85) -/

/-- Go `readSchemaFromFile`. The slice returned is given as the list of its
elements, each as the rest of the program sees it. -/
def readSchemaFromFile {σ : Type} (env : Env σ) (filePath : String) (w : World σ) :
    Except String (List GraphQLType) × World σ :=
  let w1 := w.emit (.openFile filePath)
  match env.openFile filePath with
  | .error err => (.error ("error opening schema file: " ++ err), w1)
  | .ok file =>
      match ReadAll file with
      | .error err => (.error ("error reading schema file: " ++ err), w1)
      | .ok bytes =>
          match (Unmarshal env.parseJSON decodeSchema Slice.nil bytes).2 with
          | some err => (.error ("error unmarshalling schema JSON: " ++ err), w1)
          | none =>
              (.ok ((Unmarshal env.parseJSON decodeSchema Slice.nil bytes).1.elems.map
                RawType.toType), w1)

/-! ## `readWordlist` (lines 143-160) and `bufio.Scanner` -/

/-- Go `bufio.MaxScanTokenSize`, the size in bytes the buffer of a scanner made
by `bufio.NewScanner` can grow to. -/
def MaxScanTokenSize : Nat := 64 * 1024

/-- The size in bytes of a text in UTF-8. -/
def byteLen (data : List Char) : Nat := (data.map Char.utf8Size).sum

/-- The longest prefix of a text that fits in `n` bytes, after the characters
`acc` already taken (last one first). -/
def takeBytesAux : Nat → List Char → List Char → List Char
  | _, [], acc => acc.reverse
  | n, c :: cs, acc =>
      if c.utf8Size ≤ n then takeBytesAux (n - c.utf8Size) cs (c :: acc) else acc.reverse

/-- The longest prefix of a text that fits in `n` bytes. -/
def takeBytes (n : Nat) (data : List Char) : List Char := takeBytesAux n data []

/-- Go `dropCR`: drop one trailing carriage return. -/
def dropCR (data : List Char) : List Char :=
  if data.getLast? = some '\r' then data.dropLast else data

/-- Go `bufio.ScanLines`: how far to advance and the token found, if any. -/
def ScanLines (data : List Char) (atEOF : Bool) : Nat × Option (List Char) :=
  if atEOF && data.length == 0 then (0, none)
  else if '\n' ∈ data then
    (data.indexOf '\n' + 1, some (dropCR (data.take (data.indexOf '\n'))))
  else if atEOF then (data.length, some (dropCR data))
  else (0, none)

/-- A scanner made by `bufio.NewScanner`: the text of the stream not yet
consumed, the error a read of the stream reports after the text, and the error
of the scanner itself (`scanner.Err()`). -/
structure Scanner where
  pending : List Char
  readErr : Option String
  err : Option String
  deriving Repr, DecidableEq

/-- Go `bufio.NewScanner`. -/
def NewScanner (r : Reader) : Scanner := ⟨r.content.toList, r.readErr, none⟩

/-- Go `(*Scanner).Scan` with the split function `ScanLines`, and the token
`scanner.Text()` then returns. The buffer holds the pending text from its first
byte on, up to `MaxScanTokenSize` bytes. The split function is tried on the
buffer before the end of the stream is known; when it finds no token, a full
buffer is the error `ErrTooLong`, otherwise the rest of the stream is in the
buffer and the split function is tried a last time at the end of the stream,
after which a read error of the stream becomes the error of the scanner. On a
scanner that has failed no token is reported (the loop of `readWordlist` stops
at the first call that reports none). -/
def Scanner.Scan (s : Scanner) : Option String × Scanner :=
  if s.err.isSome then (none, s)
  else
    let full := decide (MaxScanTokenSize ≤ byteLen s.pending)
    let buf := if full then takeBytes MaxScanTokenSize s.pending else s.pending
    match ScanLines buf false with
    | (advance, some token) => (some (String.mk token), { s with pending := s.pending.drop advance })
    | (_, none) =>
        if full then (none, { s with err := some "bufio.Scanner: token too long" })
        else
          match ScanLines buf true with
          | (advance, some token) =>
              (some (String.mk token), { s with pending := s.pending.drop advance })
          | (_, none) => (none, { s with err := s.readErr })

/-- Lines 152-154: the loop `for scanner.Scan()`, run for at most `fuel` calls
of `Scan`; the list of words read and the scanner after the loop. -/
def scanLoop : Nat → Scanner → List String → List String × Scanner
  | 0, s, wordlist => (wordlist, s)
  | fuel + 1, s, wordlist =>
      match s.Scan with
      | (some text, s2) => scanLoop fuel s2 (wordlist ++ [text])
      | (none, s2) => (wordlist, s2)

/-- Go `readWordlist`. Every successful call of `Scan` consumes at least one
character of the stream: the loop is over after one call more than the stream
has characters. -/
def readWordlist {σ : Type} (env : Env σ) (filePath : String) (w : World σ) :
    Except String (List String) × World σ :=
  let w1 := w.emit (.openFile filePath)
  match env.openFile filePath with
  | .error err => (.error ("error opening wordlist file: " ++ err), w1)
  | .ok file =>
      match (scanLoop (file.content.length + 1) (NewScanner file) []).2.err with
      | some err => (.error ("error reading wordlist: " ++ err), w1)
      | none => (.ok (scanLoop (file.content.length + 1) (NewScanner file) []).1, w1)

/-! ## `main` (lines 162-188) -/

/-- The package variables set by `flag.Parse` (lines 17-27). -/
structure Flags where
  endpoint : String
  gqlFile : String
  wordlistPath : String
  deriving Repr, DecidableEq

/-- Lines 181-187: read the schema and fuzz. -/
def mainFuzz {σ : Type} (env : Env σ) (flags : Flags) (wordlist : List String) (w : World σ) :
    World σ :=
  match (readSchemaFromFile env flags.gqlFile w).1 with
  | .error err =>
      (readSchemaFromFile env flags.gqlFile w).2.emit
        (.stdout (Sprintf "Error reading schema file: %v\n" [err]))
  | .ok types => fuzzGraphQL env flags.endpoint types wordlist (readSchemaFromFile env flags.gqlFile w).2

/-- Go `main`, after `flag.Parse`. -/
def main {σ : Type} (env : Env σ) (flags : Flags) (w : World σ) : World σ :=
  if flags.endpoint == "" || flags.gqlFile == "" then
    (w.emit (.stdout "Both --endpoint and --gqlfile flags are required.\n")).emit .usage
  else if flags.wordlistPath != "" then
    match (readWordlist env flags.wordlistPath w).1 with
    | .error err =>
        (readWordlist env flags.wordlistPath w).2.emit
          (.stdout (Sprintf "Error reading wordlist: %v\n" [err]))
    | .ok wordlistData => mainFuzz env flags wordlistData (readWordlist env flags.wordlistPath w).2
  else mainFuzz env flags [] w

/-! ## The query format as the specification words it -/

/-- The argument list of the specification: every name bound to the word `W` as
a double-quoted string, the bindings separated by a comma and a blank. -/
def specBindings (W : String) : List String → String
  | [] => ""
  | [n] => n ++ ": \"" ++ W ++ "\""
  | n :: m :: rest => n ++ ": \"" ++ W ++ "\"" ++ ", " ++ specBindings W (m :: rest)

/-- The query of the specification for a type name, a field name, the names of
the arguments of the field and a word. -/
def specQuery (T F : String) (argNames : List String) (W : String) : String :=
  "\x7b " ++ T ++ "(" ++ specBindings W argNames ++ ") \x7b " ++ F ++ " \x7d \x7d"

/-! ## The query sequence as the specification words it -/

/-- A fuzz target: a type of kind `OBJECT` named neither `Query` nor `Mutation`. -/
def IsTarget (t : GraphQLType) : Prop :=
  t.kind = "OBJECT" ∧ t.name ≠ "Query" ∧ t.name ≠ "Mutation"

instance (t : GraphQLType) : Decidable (IsTarget t) := by
  unfold IsTarget; infer_instance

/-- The effective word list: the word list, or the single empty string when
there is none. -/
def effectiveWords (wordlist : List String) : List String :=
  if wordlist = [] then [""] else wordlist

/-- The ordered cross-product of the specification: for each fuzz target in
input order, for each of its fields in declaration order, for each word of the
effective word list in order, the query built for them. -/
def crossProduct (types : List GraphQLType) (wordlist : List String) : List String :=
  (types.filter fun t => decide (IsTarget t)).flatMap fun t =>
    t.fields.flatMap fun field =>
      (effectiveWords wordlist).map fun W => fuzzedQuery t field W

/-- The report on the query `q` for what `sendQuery` returned on it: the error
line with the error, or the query with the rendering of the response. -/
def reportOf {σ : Type} (env : Env σ) (q : String) : Except String GraphQLResponse → String
  | .error err => "Error sending fuzzed request: " ++ err ++ "\n"
  | .ok response =>
      "Fuzzed Query: " ++ q ++ "\nResponse: " ++ env.fmtResponse response ++ "\n"

/-- What `sendQuery` returns on each query of a list, the queries being sent in
turn to a network that starts in the state `net`. -/
def outcomes {σ : Type} (env : Env σ) (url : String) :
    List String → σ → List (Except String GraphQLResponse)
  | [], _ => []
  | q :: qs, net =>
      (sendQuery env url q ⟨net, []⟩).1 ::
        outcomes env url qs (sendQuery env url q ⟨net, []⟩).2.net

/-- The calls of `sendQuery` and the texts written to standard output, in the
order they happen. -/
def attemptsOf (trace : List Event) : List Event :=
  trace.filter fun e => match e with
    | .sendQuery _ _ => true
    | .stdout _ => true
    | _ => false

/-- The triples of the cross-product: fuzz target, field and word. -/
def crossTriples (types : List GraphQLType) (wordlist : List String) :
    List (GraphQLType × GraphQLField × String) :=
  (types.filter fun t => decide (IsTarget t)).flatMap fun t =>
    t.fields.flatMap fun field =>
      (effectiveWords wordlist).map fun W => (t, field, W)

/-! ## Files and environments used to state and to instantiate the theorems -/

/-- The text of a file made of the given lines, each written as one line: the
line followed by a line feed. -/
def linesFile (lines : List String) : String :=
  String.join (lines.map fun l => l ++ "\n")

/-- An environment without network state: the given files and JSON parser, a
request body that is the query itself, a network that refuses every
connection, and responses rendered as the empty text. -/
def offlineEnv (openFile : String → Except String Reader)
    (parseJSON : String → Except String JSON) : Env Unit where
  openFile := openFile
  parseJSON := parseJSON
  marshalRequest := fun query => .ok query
  httpPost := fun _ _ _ _ => (.error "connection refused", ())
  fmtResponse := fun _ => ""

/-! ## The shape of a schema file as the specification words it -/

/-- The object `members` has the key `name` exactly once, with the value `v`,
and no other key that `encoding/json` would decode into the member `name`. -/
def HasOnly (name : String) (members : List (String × JSON)) (v : JSON) : Prop :=
  members.filter (fun m => decide (findField [name] m.1 = some name)) = [(name, v)]

/-- The introspection envelope: an object whose `data` is an object whose
`__schema` is an object whose `types` is the array of the values `ts`. -/
def IsEnvelope (v : JSON) (ts : List JSON) : Prop :=
  ∃ m1 m2 m3, v = .object m1 ∧ HasOnly "data" m1 (.object m2)
    ∧ HasOnly "__schema" m2 (.object m3) ∧ HasOnly "types" m3 (.array ts)

/-- A value fit for a Go `string`: a JSON string or `null`. -/
def conformsString : JSON → Bool
  | .string _ => true
  | .null => true
  | _ => false

mutual
/-- A value fit for a `GraphQLFieldType`: `null`, or an object whose members
`kind` and `name` are fit for a string and whose member `ofType` is fit for a
`GraphQLFieldType`. -/
def conformsFieldType : JSON → Bool
  | .null => true
  | .object ms => conformsFieldTypeMembers ms
  | .bool _ => false
  | .number _ => false
  | .string _ => false
  | .array _ => false
/-- The members of an object fit for a `GraphQLFieldType`. -/
def conformsFieldTypeMembers : List (String × JSON) → Bool
  | [] => true
  | (key, v) :: rest =>
      (match findField ["kind", "name", "ofType"] key with
        | some "kind" => conformsString v
        | some "name" => conformsString v
        | some "ofType" => conformsFieldType v
        | _ => true) && conformsFieldTypeMembers rest
end

/-- A value fit for a slice: `null`, or an array of values fit for the element. -/
def conformsSlice (elem : JSON → Bool) : JSON → Bool
  | .null => true
  | .array es => es.all elem
  | _ => false

/-- A value fit for a struct: `null`, or an object each of whose members is fit
for the struct member it is decoded into. -/
def conformsStruct (member : String × JSON → Bool) : JSON → Bool
  | .null => true
  | .object ms => ms.all member
  | _ => false

/-- A value fit for a `GraphQLFieldArg`. -/
def conformsFieldArg : JSON → Bool :=
  conformsStruct fun m =>
    match findField ["name", "type"] m.1 with
    | some "name" => conformsString m.2
    | some "type" => conformsFieldType m.2
    | _ => true

/-- A value fit for a `GraphQLField`. -/
def conformsField : JSON → Bool :=
  conformsStruct fun m =>
    match findField ["name", "args", "type"] m.1 with
    | some "name" => conformsString m.2
    | some "args" => conformsSlice conformsFieldArg m.2
    | some "type" => conformsFieldType m.2
    | _ => true

/-- A value fit for a `GraphQLType`. -/
def conformsType : JSON → Bool :=
  conformsStruct fun m =>
    match findField ["kind", "name", "fields"] m.1 with
    | some "kind" => conformsString m.2
    | some "name" => conformsString m.2
    | some "fields" => conformsSlice conformsField m.2
    | _ => true

/-- A value fit for the variable `schema` of `readSchemaFromFile`: every value
at a position the decoder stores is `null` or of the JSON kind of the Go member
at that position. Keys may be missing. -/
def conformsSchema : JSON → Bool :=
  conformsStruct fun m =>
    if findField ["data"] m.1 = some "data" then
      conformsStruct (fun m =>
        if findField ["__schema"] m.1 = some "__schema" then
          conformsStruct (fun m =>
            if findField ["types"] m.1 = some "types" then conformsSlice conformsType m.2
            else true) m.2
        else true) m.2
    else true

/-! ## What a JSON value says of a type, as the specification words it

The kind, the name and the fields a value describes are read from it by key,
without the decoder: a member of a struct is the value of the key of that
member, the zero value when the key is missing or `null`. -/

/-- The value of the first member of an object that is decoded into the struct
member `name`; `null` when the object has none. -/
def lookup (fields : List String) (name : String) (ms : List (String × JSON)) : JSON :=
  match ms.find? (fun m => decide (findField fields m.1 = some name)) with
  | some m => m.2
  | none => .null

/-- No struct member is given twice by the object. -/
def uniqueKeys (fields : List String) (ms : List (String × JSON)) : Bool :=
  fields.all fun name =>
    decide ((ms.filter fun m => decide (findField fields m.1 = some name)).length ≤ 1)

/-- The Go string a JSON value says: the string itself, the empty string for
`null`. -/
def specString : JSON → String
  | .string s => s
  | _ => ""

mutual
/-- The field type a JSON value says. -/
def specFieldType : JSON → GraphQLFieldType
  | .object ms =>
      .mk (specString (lookup ["kind", "name", "ofType"] "kind" ms))
        (specString (lookup ["kind", "name", "ofType"] "name" ms)) (specOfType ms)
  | .null => .zero
  | .bool _ => .zero
  | .number _ => .zero
  | .string _ => .zero
  | .array _ => .zero
/-- The `ofType` the members of an object say: what the first member decoded
into `ofType` says, nil when it is `null` or when there is none. -/
def specOfType : List (String × JSON) → Option GraphQLFieldType
  | [] => none
  | (key, v) :: rest =>
      if findField ["kind", "name", "ofType"] key = some "ofType" then
        if v.isNull then none else some (specFieldType v)
      else specOfType rest
end

/-- The list a JSON value says: one element for each element of an array, in
order; no element for `null`. -/
def specSlice {α : Type} (elem : JSON → α) : JSON → List α
  | .array es => es.map elem
  | _ => []

/-- The argument a JSON value says. -/
def specFieldArg : JSON → GraphQLFieldArg
  | .object ms =>
      ⟨specString (lookup ["name", "type"] "name" ms),
        specFieldType (lookup ["name", "type"] "type" ms)⟩
  | _ => .zero

/-- The field a JSON value says. -/
def specField : JSON → GraphQLField
  | .object ms =>
      ⟨specString (lookup ["name", "args", "type"] "name" ms),
        specSlice specFieldArg (lookup ["name", "args", "type"] "args" ms),
        specFieldType (lookup ["name", "args", "type"] "type" ms)⟩
  | _ => .zero

/-- The type a JSON value says: its kind, its name and its fields. -/
def specType : JSON → GraphQLType
  | .object ms =>
      ⟨specString (lookup ["kind", "name", "fields"] "kind" ms),
        specString (lookup ["kind", "name", "fields"] "name" ms),
        specSlice specField (lookup ["kind", "name", "fields"] "fields" ms)⟩
  | _ => .zero

mutual
/-- No object of a value read as a field type gives a member twice. -/
def uniqueFieldType : JSON → Bool
  | .object ms => uniqueKeys ["kind", "name", "ofType"] ms && uniqueOfType ms
  | .null => true
  | .bool _ => true
  | .number _ => true
  | .string _ => true
  | .array _ => true
/-- The values of the members decoded into `ofType` give no member twice. -/
def uniqueOfType : List (String × JSON) → Bool
  | [] => true
  | (key, v) :: rest =>
      (if findField ["kind", "name", "ofType"] key = some "ofType" then uniqueFieldType v
        else true) && uniqueOfType rest
end

/-- No object of a value read as a slice gives a member twice. -/
def uniqueSlice (elem : JSON → Bool) : JSON → Bool
  | .array es => es.all elem
  | _ => true

/-- An object read as a struct gives no member twice, and neither do the values
of its members. -/
def uniqueStruct (fields : List String) (member : String × JSON → Bool) : JSON → Bool
  | .object ms => uniqueKeys fields ms && ms.all member
  | _ => true

/-- No object of a value read as an argument gives a member twice. -/
def uniqueFieldArg : JSON → Bool :=
  uniqueStruct ["name", "type"] fun m =>
    match findField ["name", "type"] m.1 with
    | some "type" => uniqueFieldType m.2
    | _ => true

/-- No object of a value read as a field gives a member twice. -/
def uniqueField : JSON → Bool :=
  uniqueStruct ["name", "args", "type"] fun m =>
    match findField ["name", "args", "type"] m.1 with
    | some "args" => uniqueSlice uniqueFieldArg m.2
    | some "type" => uniqueFieldType m.2
    | _ => true

/-- No object of a value read as a type gives a member twice. -/
def uniqueType : JSON → Bool :=
  uniqueStruct ["kind", "name", "fields"] fun m =>
    match findField ["kind", "name", "fields"] m.1 with
    | some "fields" => uniqueSlice uniqueField m.2
    | _ => true

/-- The JSON text of a field type, as an introspection response writes it. -/
def encodeFieldType : GraphQLFieldType → JSON
  | .mk kind name none =>
      .object [("kind", .string kind), ("name", .string name), ("ofType", .null)]
  | .mk kind name (some o) =>
      .object [("kind", .string kind), ("name", .string name), ("ofType", encodeFieldType o)]

/-- The JSON text of an argument. -/
def encodeFieldArg (a : GraphQLFieldArg) : JSON :=
  .object [("name", .string a.name), ("type", encodeFieldType a.type)]

/-- The JSON text of a field. -/
def encodeField (f : GraphQLField) : JSON :=
  .object [("name", .string f.name), ("args", .array (f.args.map encodeFieldArg)),
    ("type", encodeFieldType f.type)]

/-- The JSON text of a type. -/
def encodeType (t : GraphQLType) : JSON :=
  .object [("kind", .string t.kind), ("name", .string t.name),
    ("fields", .array (t.fields.map encodeField))]

/-- The JSON text of the introspection envelope of a list of types. -/
def encodeSchema (types : List GraphQLType) : JSON :=
  .object [("data", .object [("__schema", .object [("types", .array (types.map encodeType))])])]

/-- A type `User` with the field `getName(id: Int!): String`. -/
def userType : GraphQLType :=
  ⟨"OBJECT", "User",
    [⟨"getName", [⟨"id", .mk "NON_NULL" "" (some (.mk "SCALAR" "Int" none))⟩],
      .mk "SCALAR" "String" none⟩]⟩

/-- A type `Query` with the field `me: User`. -/
def queryType : GraphQLType :=
  ⟨"OBJECT", "Query", [⟨"me", [], .mk "OBJECT" "User" none⟩]⟩

/-- The text of the introspection response for the types `userType` and
`queryType`. -/
def schemaText : String :=
  "\x7b\"data\":\x7b\"__schema\":\x7b\"types\":[\x7b\"kind\":\"OBJECT\",\"name" ++
    "\":\"User\",\"fields\":[\x7b\"name\":\"getName\",\"args\":[\x7b\"name\":\"id" ++
    "\",\"type\":\x7b\"kind\":\"NON_NULL\",\"name\":\"\",\"ofType\":\x7b\"kind\":" ++
    "\"SCALAR\",\"name\":\"Int\",\"ofType\":null\x7d\x7d\x7d],\"type\":\x7b\"kind" ++
    "\":\"SCALAR\",\"name\":\"String\",\"ofType\":null\x7d\x7d]\x7d,\x7b\"kind\":" ++
    "\"OBJECT\",\"name\":\"Query\",\"fields\":[\x7b\"name\":\"me\",\"args\":[],\"" ++
    "type\":\x7b\"kind\":\"OBJECT\",\"name\":\"User\",\"ofType\":null\x7d\x7d]" ++
    "\x7d]\x7d\x7d\x7d"

/-- The text of an introspection response as a server writes it: members in
any order, members the program does not read, `null` for what a type lacks. -/
def serverText : String :=
  "\x7b\"data\":\x7b\"__schema\":\x7b\"queryType\":\x7b\"name\":\"Query\"\x7d," ++
    "\"types\":[\x7b\"kind\":\"SCALAR\",\"name\":\"Int\",\"description\":null,\"f" ++
    "ields\":null\x7d,\x7b\"name\":\"User\",\"kind\":\"OBJECT\",\"fields\":[\x7b" ++
    "\"name\":\"getName\",\"args\":[],\"type\":\x7b\"kind\":\"NON_NULL\",\"name\"" ++
    ":null,\"ofType\":\x7b\"kind\":\"SCALAR\",\"name\":\"String\",\"ofType\":null" ++
    "\x7d\x7d,\"isDeprecated\":false\x7d]\x7d]\x7d\x7d\x7d"

/-- The types of the document `serverText`. -/
def serverTypes : List JSON :=
  [.object [("kind", .string "SCALAR"), ("name", .string "Int"), ("description", .null),
      ("fields", .null)],
    .object [("name", .string "User"), ("kind", .string "OBJECT"),
      ("fields", .array [.object [("name", .string "getName"), ("args", .array []),
        ("type", .object [("kind", .string "NON_NULL"), ("name", .null),
          ("ofType", .object [("kind", .string "SCALAR"), ("name", .string "String"),
            ("ofType", .null)])]),
        ("isDeprecated", .bool false)]])]]

/-- The document of the text `serverText`. -/
def serverDoc : JSON :=
  .object [("data", .object [("__schema", .object
    [("queryType", .object [("name", .string "Query")]), ("types", .array serverTypes)])])]

/-- A type object that gives `fields` three times: two fields `a` and `b`, `b`
with an argument `x`; then one field `c`; then two fields `d` and `e`. -/
def repeatedFields : JSON :=
  .object [
    ("fields", .array [.object [("name", .string "a")],
      .object [("name", .string "b"), ("args", .array [.object [("name", .string "x")]])]]),
    ("fields", .array [.object [("name", .string "c")]]),
    ("fields", .array [.object [("name", .string "d")], .object [("name", .string "e")]])]

/-- The text of an envelope whose only type is `repeatedFields`. -/
def repeatedText : String :=
  "\x7b\"data\":\x7b\"__schema\":\x7b\"types\":[\x7b\"fields\":[\x7b\"name\":\"" ++
    "a\"\x7d,\x7b\"name\":\"b\",\"args\":[\x7b\"name\":\"x\"\x7d]\x7d],\"fields\"" ++
    ":[\x7b\"name\":\"c\"\x7d],\"fields\":[\x7b\"name\":\"d\"\x7d,\x7b\"name\":\"" ++
    "e\"\x7d]\x7d]\x7d\x7d\x7d"

/-- The document of the text `repeatedText`. -/
def repeatedDoc : JSON :=
  .object [("data", .object [("__schema", .object [("types", .array [repeatedFields])])])]

/-- A JSON parser known on the listed documents only: the value of a listed
text, a syntax error for any other text. -/
def tableParser (table : List (String × JSON)) (text : String) : Except String JSON :=
  match table.find? (fun p => p.1 == text) with
  | some p => .ok p.2
  | none => .error "invalid character looking for beginning of value"

/-- An environment whose network refuses the first connection and answers every
later request with the body `{"data":null}`; the state of the network is the
number of requests made so far. -/
def flakyEnv : Env Nat where
  openFile := fun _ => .error "no such file or directory"
  parseJSON := tableParser [("\x7b\"data\":null\x7d", .object [("data", .null)])]
  marshalRequest := fun query => .ok query
  httpPost := fun _ _ _ n =>
    (if n = 0 then .error "connection refused" else .ok ⟨"\x7b\"data\":null\x7d", none⟩, n + 1)
  fmtResponse := fun _ => "&\x7b<nil> <nil>\x7d"

/-- An environment without files, where no text is JSON and the network refuses
every connection. -/
def emptyEnv : Env Unit :=
  offlineEnv (fun _ => .error "no such file or directory") (tableParser [])

/-! ## Lemmas on formatting -/

theorem sprintf_query (a b c : String) :
    Sprintf "\x7b %s(%s) \x7b %s \x7d \x7d" [a, b, c]
      = "\x7b " ++ a ++ "(" ++ b ++ ") \x7b " ++ c ++ " \x7d \x7d" := by
  apply String.ext
  simp [Sprintf, sprintfAux, String.toList, String.singleton]

theorem sprintf_arg (n w : String) :
    Sprintf "%s: \"%s\"" [n, w] = n ++ ": \"" ++ w ++ "\"" := by
  apply String.ext
  simp [Sprintf, sprintfAux, String.toList, String.singleton]

/-- The loop that fills a slice index by index computes a map. -/
theorem foldl_set_enumFrom {α β : Type} (f : α → β) (l : List α) :
    ∀ (k : Nat) (acc : List β), acc.length = k + l.length →
      (l.enumFrom k).foldl (fun acc p => acc.set p.1 (f p.2)) acc = acc.take k ++ l.map f := by
  induction l with
  | nil => intro k acc h; simp at h; simp [← h]
  | cons a l ih =>
      intro k acc h
      simp only [List.enumFrom_cons, List.foldl_cons, List.length_cons] at h ⊢
      rw [ih (k + 1) (acc.set k (f a)) (by simp; omega)]
      have hk : k < acc.length := by omega
      rw [List.take_succ]
      have ht : List.take k (acc.set k (f a)) = List.take k acc := by
        rw [List.set_take, List.set_eq_of_length_le (by simp)]
      simp [List.getElem?_set, hk, ht]

theorem fuzzedArgs_eq (field : GraphQLField) (W : String) :
    fuzzedArgs field W = field.args.map (fun a => a.name ++ ": \"" ++ W ++ "\"") := by
  unfold fuzzedArgs List.enum
  rw [foldl_set_enumFrom (fun a : GraphQLFieldArg => Sprintf "%s: \"%s\"" [a.name, W])
    field.args 0 _ (by simp)]
  simp [sprintf_arg]

theorem foldl_join_bindings (W : String) (rest : List String) :
    ∀ e : String,
      (rest.map fun n => n ++ ": \"" ++ W ++ "\"").foldl (fun b s => b ++ ", " ++ s) e
        = e ++ (match rest with
                | [] => ""
                | m :: r => ", " ++ specBindings W (m :: r)) := by
  induction rest with
  | nil => intro e; simp
  | cons m r ih =>
      intro e
      rw [List.map_cons, List.foldl_cons, ih]
      cases r with
      | nil => simp only [specBindings, String.append_assoc, String.append_empty]
      | cons m2 r2 => simp only [specBindings, String.append_assoc]

theorem join_bindings (W : String) (names : List String) :
    Join (names.map fun n => n ++ ": \"" ++ W ++ "\"") ", " = specBindings W names := by
  match names with
  | [] => rfl
  | [n] => rfl
  | n :: m :: rest =>
      show ((m :: rest).map fun n => n ++ ": \"" ++ W ++ "\"").foldl
        (fun b s => b ++ ", " ++ s) (n ++ ": \"" ++ W ++ "\"") = _
      rw [foldl_join_bindings]
      simp only [specBindings, String.append_assoc]

theorem fuzzedQuery_eq (t : GraphQLType) (field : GraphQLField) (W : String) :
    fuzzedQuery t field W = specQuery t.name field.name (field.args.map (·.name)) W := by
  unfold fuzzedQuery specQuery
  rw [sprintf_query, fuzzedArgs_eq, ← join_bindings, List.map_map]
  rfl

/-! ## Lemmas on the trace of `fuzzGraphQL` -/

theorem sprintf_report (q r : String) :
    Sprintf "Fuzzed Query: %s\nResponse: %v\n" [q, r]
      = "Fuzzed Query: " ++ q ++ "\nResponse: " ++ r ++ "\n" := by
  apply String.ext
  simp [Sprintf, sprintfAux, String.toList, String.singleton]

@[simp] theorem queriesOf_append (a b : List Event) :
    queriesOf (a ++ b) = queriesOf a ++ queriesOf b := by
  simp [queriesOf]

@[simp] theorem stdoutOf_append (a b : List Event) :
    stdoutOf (a ++ b) = stdoutOf a ++ stdoutOf b := by
  simp [stdoutOf]

@[simp] theorem queriesOf_stdout (text : String) : queriesOf [.stdout text] = [] := rfl

@[simp] theorem queriesOf_sendQuery (url q : String) : queriesOf [.sendQuery url q] = [q] := rfl

@[simp] theorem queriesOf_httpPost (url c b : String) : queriesOf [.httpPost url c b] = [] := rfl

@[simp] theorem stdoutOf_stdout (text : String) : stdoutOf [.stdout text] = [text] := rfl

@[simp] theorem stdoutOf_sendQuery (url q : String) : stdoutOf [.sendQuery url q] = [] := rfl

@[simp] theorem stdoutOf_httpPost (url c b : String) : stdoutOf [.httpPost url c b] = [] := rfl

/-- A call of `sendQuery` records itself and at most one HTTP request. -/
theorem sendQuery_trace {σ : Type} (env : Env σ) (url q : String) (w : World σ) :
    (sendQuery env url q w).2.trace = w.trace ++ [.sendQuery url q]
      ∨ ∃ body, (sendQuery env url q w).2.trace
          = w.trace ++ [.sendQuery url q] ++ [.httpPost url "application/json" body] := by
  unfold sendQuery
  split
  · left; rfl
  · right
    rename_i requestBody _
    refine ⟨requestBody, ?_⟩
    dsimp only
    split
    · rfl
    · split
      · rfl
      · split <;> rfl

theorem sendQuery_queries {σ : Type} (env : Env σ) (url q : String) (w : World σ) :
    queriesOf (sendQuery env url q w).2.trace = queriesOf w.trace ++ [q] := by
  rcases sendQuery_trace env url q w with h | ⟨body, h⟩
  · rw [h]; simp
  · rw [h]; simp; rfl

theorem sendQuery_stdout {σ : Type} (env : Env σ) (url q : String) (w : World σ) :
    stdoutOf (sendQuery env url q w).2.trace = stdoutOf w.trace := by
  rcases sendQuery_trace env url q w with h | ⟨body, h⟩
  · rw [h]; simp
  · rw [h]; simp; rfl

theorem fuzzOne_queries {σ : Type} (env : Env σ) (url : String) (t : GraphQLType)
    (field : GraphQLField) (w : World σ) (W : String) :
    queriesOf (fuzzOne env url t field w W).trace = queriesOf w.trace ++ [fuzzedQuery t field W] := by
  unfold fuzzOne
  split <;> simp [World.emit, sendQuery_queries]

theorem flatMap_singleton_map {α β : Type} (g : α → β) (l : List α) :
    (l.flatMap fun x => [g x]) = l.map g := by
  induction l with
  | nil => rfl
  | cons a l ih => simp [List.flatMap_cons, ih]

/-- A loop whose body appends `g x` to an observation of the world appends the
concatenation of the `g x` in order. -/
theorem foldl_observe {ω α β : Type} (obs : ω → List β) (step : ω → α → ω) (g : α → List β)
    (h : ∀ w x, obs (step w x) = obs w ++ g x) :
    ∀ (l : List α) (w : ω), obs (l.foldl step w) = obs w ++ l.flatMap g := by
  intro l
  induction l with
  | nil => intro w; simp
  | cons x l ih => intro w; simp [ih, h, List.append_assoc]

theorem foldl_ite_filter {α μ : Type} (p : μ → Prop) [DecidablePred p] (f : α → μ → α) :
    ∀ (ms : List μ) (s : α),
      ms.foldl (fun s m => if p m then f s m else s) s
        = (ms.filter fun m => decide (p m)).foldl f s := by
  intro ms
  induction ms with
  | nil => intro s; rfl
  | cons m ms ih =>
      intro s
      by_cases h : p m <;> simp [List.filter_cons, h, ih]

theorem fuzzList_eq (wordlist : List String) : fuzzList wordlist = effectiveWords wordlist := by
  unfold fuzzList effectiveWords
  cases wordlist <;> simp

theorem fuzzField_queries {σ : Type} (env : Env σ) (url : String) (wordlist : List String)
    (t : GraphQLType) (w : World σ) (field : GraphQLField) :
    queriesOf (fuzzField env url wordlist t w field).trace
      = queriesOf w.trace ++ (effectiveWords wordlist).map fun W => fuzzedQuery t field W := by
  unfold fuzzField
  rw [foldl_observe (fun w : World σ => queriesOf w.trace) _ (fun W => [fuzzedQuery t field W])
    (fuzzOne_queries env url t field), fuzzList_eq]
  rw [flatMap_singleton_map]

theorem fuzzType_queries {σ : Type} (env : Env σ) (url : String) (wordlist : List String)
    (w : World σ) (t : GraphQLType) :
    queriesOf (fuzzType env url wordlist w t).trace
      = queriesOf w.trace ++
          if IsTarget t then
            t.fields.flatMap fun field => (effectiveWords wordlist).map fun W => fuzzedQuery t field W
          else [] := by
  unfold fuzzType
  by_cases h : IsTarget t
  · have h2 := h
    unfold IsTarget at h2
    rw [if_pos (by simp [h2.1, h2.2.1, h2.2.2]), if_pos h]
    exact foldl_observe (fun w : World σ => queriesOf w.trace) _ _
      (fun w field => fuzzField_queries env url wordlist t w field) _ _
  · have h2 := h
    unfold IsTarget at h2
    rw [if_neg (by simpa [and_assoc] using h2), if_neg h]
    simp

theorem bind_ite_filter {α β : Type} (p : α → Prop) [DecidablePred p] (g : α → List β)
    (l : List α) :
    (l.flatMap fun x => if p x then g x else []) = (l.filter fun x => decide (p x)).flatMap g := by
  induction l with
  | nil => rfl
  | cons x l ih =>
      by_cases h : p x <;> simp [List.filter_cons, h, ih]

theorem fuzzGraphQL_queries {σ : Type} (env : Env σ) (url : String) (types : List GraphQLType)
    (wordlist : List String) (w : World σ) :
    queriesOf (fuzzGraphQL env url types wordlist w).trace
      = queriesOf w.trace ++ crossProduct types wordlist := by
  unfold fuzzGraphQL crossProduct
  rw [foldl_observe (fun w : World σ => queriesOf w.trace) _ _
    (fun w t => fuzzType_queries env url wordlist w t)]
  rw [bind_ite_filter]

/-- What `sendQuery` returns and the state it leaves the network in depend on
the state of the network only, not on the events so far. -/
theorem sendQuery_net {σ : Type} (env : Env σ) (url q : String) (w : World σ) :
    (sendQuery env url q w).1 = (sendQuery env url q ⟨w.net, []⟩).1
      ∧ (sendQuery env url q w).2.net = (sendQuery env url q ⟨w.net, []⟩).2.net := by
  unfold sendQuery
  cases env.marshalRequest q with
  | error e => exact ⟨rfl, rfl⟩
  | ok requestBody =>
      simp only [World.emit]
      cases (env.httpPost url "application/json" requestBody w.net).1 with
      | error e => exact ⟨rfl, rfl⟩
      | ok body =>
          simp only
          cases ReadAll body with
          | error e => exact ⟨rfl, rfl⟩
          | ok responseBody =>
              simp only
              cases (Unmarshal env.parseJSON decodeResponse ⟨.null, .null⟩ responseBody).2 with
              | none => exact ⟨rfl, rfl⟩
              | some e => exact ⟨rfl, rfl⟩

@[simp] theorem attemptsOf_append (a b : List Event) :
    attemptsOf (a ++ b) = attemptsOf a ++ attemptsOf b := by
  simp [attemptsOf]

theorem sendQuery_attempts {σ : Type} (env : Env σ) (url q : String) (w : World σ) :
    attemptsOf (sendQuery env url q w).2.trace = attemptsOf w.trace ++ [.sendQuery url q] := by
  rcases sendQuery_trace env url q w with h | ⟨body, h⟩
  · rw [h]; simp; rfl
  · rw [h]; simp; rfl

/-- One pass of the innermost loop: the network moves as `sendQuery` moves it,
and the one text written is the report on what `sendQuery` returned. -/
theorem fuzzOne_report {σ : Type} (env : Env σ) (url : String) (t : GraphQLType)
    (field : GraphQLField) (w : World σ) (W : String) :
    (fuzzOne env url t field w W).net
        = (sendQuery env url (fuzzedQuery t field W) ⟨w.net, []⟩).2.net
      ∧ stdoutOf (fuzzOne env url t field w W).trace
        = stdoutOf w.trace ++ [reportOf env (fuzzedQuery t field W)
            (sendQuery env url (fuzzedQuery t field W) ⟨w.net, []⟩).1]
      ∧ attemptsOf (fuzzOne env url t field w W).trace
        = attemptsOf w.trace ++ [.sendQuery url (fuzzedQuery t field W),
            .stdout (reportOf env (fuzzedQuery t field W)
              (sendQuery env url (fuzzedQuery t field W) ⟨w.net, []⟩).1)] := by
  obtain ⟨h1, h2⟩ := sendQuery_net env url (fuzzedQuery t field W) w
  rw [← h1, ← h2]
  unfold fuzzOne
  cases hr : (sendQuery env url (fuzzedQuery t field W) w).1 with
  | error err =>
      refine ⟨rfl, ?_, ?_⟩
      · simp [World.emit, sendQuery_stdout, reportOf]
      · simp [World.emit, sendQuery_attempts, reportOf]; rfl
  | ok response =>
      refine ⟨rfl, ?_, ?_⟩
      · simp [World.emit, sendQuery_stdout, reportOf, sprintf_report]
      · simp [World.emit, sendQuery_attempts, reportOf, sprintf_report]; rfl

theorem foldl_flatMap {α β γ : Type} (f : α → List β) (g : γ → β → γ) :
    ∀ (l : List α) (a : γ),
      (l.flatMap f).foldl g a = l.foldl (fun a x => (f x).foldl g a) a := by
  intro l
  induction l with
  | nil => intro a; rfl
  | cons x l ih => intro a; rw [List.flatMap_cons, List.foldl_append, ih, List.foldl_cons]

/-- The three loops of `fuzzGraphQL` are one loop over the triples of the
cross-product. -/
theorem fuzzGraphQL_flat {σ : Type} (env : Env σ) (url : String) (types : List GraphQLType)
    (wordlist : List String) (w : World σ) :
    fuzzGraphQL env url types wordlist w
      = (crossTriples types wordlist).foldl
          (fun w x => fuzzOne env url x.1 x.2.1 w x.2.2) w := by
  unfold fuzzGraphQL crossTriples
  rw [foldl_flatMap, ← foldl_ite_filter (fun t : GraphQLType => IsTarget t)]
  congr 1
  funext w t
  unfold fuzzType
  by_cases h : IsTarget t
  · have h2 := h
    unfold IsTarget at h2
    rw [if_pos (by simp [h2.1, h2.2.1, h2.2.2]), if_pos h, foldl_flatMap]
    congr 1
    funext w field
    unfold fuzzField
    rw [fuzzList_eq, List.foldl_map]
  · have h2 := h
    unfold IsTarget at h2
    rw [if_neg (by simpa [and_assoc] using h2), if_neg h]

theorem crossTriples_queries (types : List GraphQLType) (wordlist : List String) :
    (crossTriples types wordlist).map (fun x => fuzzedQuery x.1 x.2.1 x.2.2)
      = crossProduct types wordlist := by
  unfold crossTriples crossProduct
  simp [List.map_flatMap, Function.comp_def]

theorem outcomes_length {σ : Type} (env : Env σ) (url : String) :
    ∀ (qs : List String) (net : σ), (outcomes env url qs net).length = qs.length := by
  intro qs
  induction qs with
  | nil => intro net; rfl
  | cons q qs ih => intro net; simp [outcomes, ih]

/-- A loop of attempts over triples writes, for each query in order, the report
on what `sendQuery` returned on that query. -/
theorem foldl_fuzzOne_reports {σ : Type} (env : Env σ) (url : String) :
    ∀ (xs : List (GraphQLType × GraphQLField × String)) (w : World σ),
      stdoutOf (xs.foldl (fun w x => fuzzOne env url x.1 x.2.1 w x.2.2) w).trace
          = stdoutOf w.trace ++
              List.zipWith (reportOf env) (xs.map fun x => fuzzedQuery x.1 x.2.1 x.2.2)
                (outcomes env url (xs.map fun x => fuzzedQuery x.1 x.2.1 x.2.2) w.net)
        ∧ attemptsOf (xs.foldl (fun w x => fuzzOne env url x.1 x.2.1 w x.2.2) w).trace
          = attemptsOf w.trace ++
              (((xs.map fun x => fuzzedQuery x.1 x.2.1 x.2.2).zip
                (outcomes env url (xs.map fun x => fuzzedQuery x.1 x.2.1 x.2.2) w.net)).flatMap
                fun p => [.sendQuery url p.1, .stdout (reportOf env p.1 p.2)]) := by
  intro xs
  induction xs with
  | nil => intro w; simp [outcomes]
  | cons x xs ih =>
      intro w
      obtain ⟨hnet, hout, hatt⟩ := fuzzOne_report env url x.1 x.2.1 w x.2.2
      obtain ⟨ih1, ih2⟩ := ih (fuzzOne env url x.1 x.2.1 w x.2.2)
      rw [List.foldl_cons, ih1, ih2, hnet, hout, hatt]
      simp [outcomes, List.flatMap_cons]

theorem fuzzField_nil_wordlist {σ : Type} (env : Env σ) (url : String) :
    fuzzField env url [] = fuzzField env url [""] := by
  funext t w field
  rfl

theorem crossProduct_length (types : List GraphQLType) (wordlist : List String) :
    (crossProduct types wordlist).length
      = ((types.filter fun t => decide (IsTarget t)).map fun t => t.fields.length).sum
          * (effectiveWords wordlist).length := by
  unfold crossProduct
  induction types.filter fun t => decide (IsTarget t) with
  | nil => simp
  | cons t l ih =>
      rw [List.flatMap_cons, List.length_append, ih, List.map_cons, List.sum_cons, Nat.add_mul]
      congr 1
      induction t.fields with
      | nil => simp
      | cons f fs ihf =>
          rw [List.flatMap_cons, List.length_append, ihf, List.length_map, List.length_cons]
          ring

theorem crossProduct_filter (types : List GraphQLType) (wordlist : List String) :
    crossProduct (types.filter fun t => decide (IsTarget t)) wordlist
      = crossProduct types wordlist := by
  unfold crossProduct
  rw [List.filter_filter]
  simp

theorem crossProduct_no_target (types : List GraphQLType) (wordlist : List String)
    (h : ∀ t ∈ types, ¬ IsTarget t) : crossProduct types wordlist = [] := by
  unfold crossProduct
  rw [List.filter_eq_nil_iff.mpr (by simpa using h)]
  rfl

theorem effectiveWords_ne_nil (wordlist : List String) : effectiveWords wordlist ≠ [] := by
  unfold effectiveWords
  split
  · simp
  · assumption

theorem crossProduct_target (t : GraphQLType) (wordlist : List String)
    (ht : IsTarget t) (hf : t.fields ≠ []) : crossProduct [t] wordlist ≠ [] := by
  unfold crossProduct
  obtain ⟨f, fs, hfs⟩ := List.exists_cons_of_ne_nil hf
  obtain ⟨W, Ws, hWs⟩ := List.exists_cons_of_ne_nil (effectiveWords_ne_nil wordlist)
  simp [List.filter_cons, ht, hfs, hWs]

/-! ## Lemmas on `bufio.Scanner` and `readWordlist` -/

theorem byteLen_append (a b : List Char) : byteLen (a ++ b) = byteLen a + byteLen b := by
  simp [byteLen]

theorem byteLen_cons (c : Char) (a : List Char) : byteLen (c :: a) = c.utf8Size + byteLen a := by
  simp [byteLen]

theorem utf8ByteSize_go_eq (l : List Char) : String.utf8ByteSize.go l = byteLen l := by
  induction l with
  | nil => rfl
  | cons c cs ih => rw [String.utf8ByteSize.go, ih, byteLen_cons, Nat.add_comm]

theorem utf8ByteSize_eq (s : String) : s.utf8ByteSize = byteLen s.toList := by
  cases s with
  | mk l => exact utf8ByteSize_go_eq l

theorem takeBytesAux_eq (data : List Char) :
    ∀ (n : Nat) (acc : List Char),
      takeBytesAux n data acc = acc.reverse ++ takeBytesAux n data [] := by
  induction data with
  | nil => intro n acc; simp [takeBytesAux]
  | cons c cs ih =>
      intro n acc
      rw [takeBytesAux, takeBytesAux]
      split
      · rw [ih _ (c :: acc), ih _ [c]]
        simp
      · simp

theorem takeBytes_nil (n : Nat) : takeBytes n [] = [] := rfl

theorem takeBytes_cons (n : Nat) (c : Char) (cs : List Char) :
    takeBytes n (c :: cs) = if c.utf8Size ≤ n then c :: takeBytes (n - c.utf8Size) cs else [] := by
  unfold takeBytes
  rw [takeBytesAux]
  split
  · rw [takeBytesAux_eq]; rfl
  · rfl

theorem takeBytes_append_of_le (a b : List Char) :
    ∀ n : Nat, byteLen a ≤ n → takeBytes n (a ++ b) = a ++ takeBytes (n - byteLen a) b := by
  induction a with
  | nil => intro n _; simp [byteLen]
  | cons c cs ih =>
      intro n h
      rw [byteLen_cons] at h
      have hc : c.utf8Size ≤ n := by omega
      show takeBytes n (c :: (cs ++ b)) = c :: (cs ++ takeBytes (n - byteLen (c :: cs)) b)
      rw [takeBytes_cons, if_pos hc, ih (n - c.utf8Size) (by omega), byteLen_cons, Nat.sub_add_eq]

theorem takeBytes_append_of_ge (a b : List Char) :
    ∀ n : Nat, n ≤ byteLen a → takeBytes n (a ++ b) = takeBytes n a := by
  induction a with
  | nil =>
      intro n h
      have hn : n = 0 := by simpa [byteLen] using h
      subst hn
      cases b with
      | nil => rfl
      | cons c cs =>
          have := Char.utf8Size_pos c
          rw [List.nil_append, takeBytes_cons, if_neg (by omega)]
          rfl
  | cons c cs ih =>
      intro n h
      rw [byteLen_cons] at h
      show takeBytes n (c :: (cs ++ b)) = takeBytes n (c :: cs)
      rw [takeBytes_cons, takeBytes_cons]
      split
      · rw [ih (n - c.utf8Size) (by omega)]
      · rfl

theorem takeBytes_subset (l : List Char) : ∀ n : Nat, ∀ c ∈ takeBytes n l, c ∈ l := by
  induction l with
  | nil => intro n c h; simp [takeBytes_nil] at h
  | cons a l ih =>
      intro n c h
      rw [takeBytes_cons] at h
      split at h
      · rcases List.mem_cons.mp h with h | h
        · exact List.mem_cons.mpr (Or.inl h)
        · exact List.mem_cons.mpr (Or.inr (ih _ c h))
      · simp at h

theorem scanLines_line (line rest : List Char) (h : '\n' ∉ line) :
    ScanLines (line ++ '\n' :: rest) false = (line.length + 1, some (dropCR line)) := by
  have hmem : '\n' ∈ line ++ '\n' :: rest := by simp
  have hidx : (line ++ '\n' :: rest).indexOf '\n' = line.length := by
    induction line with
    | nil => simp
    | cons c cs ih =>
        have hc : c ≠ '\n' := fun e => h (by simp [e])
        have hcs : '\n' ∉ cs := fun e => h (by simp [e])
        simp [List.indexOf_cons, hc, ih hcs]
  simp [ScanLines, hmem, hidx]

theorem scanLines_none (data : List Char) (h : '\n' ∉ data) :
    ScanLines data false = (0, none) := by
  simp [ScanLines, h]

theorem scan_line (line rest : List Char) (re : Option String) (h : '\n' ∉ line)
    (hlen : byteLen line < MaxScanTokenSize) :
    Scanner.Scan ⟨line ++ '\n' :: rest, re, none⟩
      = (some (String.mk (dropCR line)), ⟨rest, re, none⟩) := by
  have hbuf : ∃ rest2, (if decide (MaxScanTokenSize ≤ byteLen (line ++ '\n' :: rest)) = true
      then takeBytes MaxScanTokenSize (line ++ '\n' :: rest) else line ++ '\n' :: rest)
        = line ++ '\n' :: rest2 := by
    split
    · rw [takeBytes_append_of_le _ _ _ (by omega)]
      have h1 : ('\n' : Char).utf8Size ≤ MaxScanTokenSize - byteLen line := by
        have : ('\n' : Char).utf8Size = 1 := by decide
        omega
      exact ⟨takeBytes (MaxScanTokenSize - byteLen line - ('\n' : Char).utf8Size) rest,
        by rw [takeBytes_cons, if_pos h1]⟩
    · exact ⟨rest, rfl⟩
  obtain ⟨rest2, hbuf⟩ := hbuf
  simp only [Scanner.Scan, Option.isSome_none, Bool.false_eq_true, if_false, hbuf,
    scanLines_line line rest2 h]
  simp

theorem scan_end (re : Option String) :
    Scanner.Scan ⟨[], re, none⟩ = (none, ⟨[], re, re⟩) := by
  simp [Scanner.Scan, ScanLines, byteLen, MaxScanTokenSize]

theorem scan_too_long (line rest : List Char) (re : Option String) (h : '\n' ∉ line)
    (hlen : MaxScanTokenSize ≤ byteLen line) :
    Scanner.Scan ⟨line ++ rest, re, none⟩
      = (none, ⟨line ++ rest, re, some "bufio.Scanner: token too long"⟩) := by
  have hfull : MaxScanTokenSize ≤ byteLen (line ++ rest) := by
    rw [byteLen_append]; omega
  have hnone : ScanLines (takeBytes MaxScanTokenSize (line ++ rest)) false = (0, none) := by
    rw [takeBytes_append_of_ge _ _ _ hlen]
    exact scanLines_none _ (fun e => h (takeBytes_subset _ _ _ e))
  simp [Scanner.Scan, hfull, hnone]

theorem foldl_append_toList (l : List String) :
    ∀ acc : String,
      (l.foldl (fun r s => r ++ s) acc).toList = acc.toList ++ l.flatMap String.toList := by
  induction l with
  | nil => intro acc; simp
  | cons a l ih =>
      intro acc
      rw [List.foldl_cons, ih, List.flatMap_cons]
      simp [String.toList]

theorem linesFile_toList (lines : List String) :
    (linesFile lines).toList = lines.flatMap fun l => l.toList ++ ['\n'] := by
  unfold linesFile String.join
  rw [foldl_append_toList]
  induction lines with
  | nil => rfl
  | cons a l ih =>
      simp only [List.map_cons, List.flatMap_cons] at ih ⊢
      rw [← ih]
      simp

theorem linesFile_length (lines : List String) : lines.length ≤ (linesFile lines).length := by
  show lines.length ≤ (linesFile lines).toList.length
  rw [linesFile_toList]
  induction lines with
  | nil => simp
  | cons a l ih => simp only [List.flatMap_cons, List.length_append, List.length_cons]; omega

theorem scanLoop_lines (re : Option String) (lines : List String) :
    (∀ l ∈ lines, '\n' ∉ l.toList ∧ byteLen l.toList < MaxScanTokenSize) →
    ∀ (fuel : Nat) (acc : List String), lines.length < fuel →
      scanLoop fuel ⟨lines.flatMap fun l => l.toList ++ ['\n'], re, none⟩ acc
        = (acc ++ lines.map fun l => String.mk (dropCR l.toList), ⟨[], re, re⟩) := by
  induction lines with
  | nil =>
      intro _ fuel acc hf
      obtain ⟨k, rfl⟩ : ∃ k, fuel = k + 1 := ⟨fuel - 1, by simp at hf; omega⟩
      simp [scanLoop, scan_end]
  | cons a l ih =>
      intro h fuel acc hf
      obtain ⟨k, rfl⟩ : ∃ k, fuel = k + 1 := ⟨fuel - 1, by omega⟩
      have ha := h a (List.mem_cons_self a l)
      have hl : ∀ x ∈ l, '\n' ∉ x.toList ∧ byteLen x.toList < MaxScanTokenSize :=
        fun x hx => h x (List.mem_cons_of_mem a hx)
      have hk : l.length < k := by simp at hf; omega
      simp only [List.flatMap_cons, List.append_assoc, List.singleton_append, scanLoop,
        scan_line a.toList _ re ha.1 ha.2]
      rw [ih hl k _ hk]
      simp

theorem dropCR_of_no_cr (data : List Char) (h : data.getLast? ≠ some '\r') : dropCR data = data := by
  simp [dropCR, h]

theorem byteLen_replicate_a (n : Nat) : byteLen (List.replicate n 'a') = n := by
  induction n with
  | zero => rfl
  | succ n ih =>
      rw [List.replicate_succ, byteLen_cons, ih]
      have : ('a' : Char).utf8Size = 1 := by decide
      omega

/-- A file whose first line is `MaxScanTokenSize` bytes long or longer is
answered by the error of the scanner. -/
theorem readWordlist_too_long {σ : Type} (env : Env σ) (filePath : String) (w : World σ)
    (file : Reader) (line rest : List Char)
    (hfile : env.openFile filePath = .ok file)
    (hcontent : file.content.toList = line ++ '\n' :: rest)
    (h : '\n' ∉ line) (hlen : MaxScanTokenSize ≤ byteLen line) :
    (readWordlist env filePath w).1
      = .error "error reading wordlist: bufio.Scanner: token too long" := by
  have hscan := scan_too_long line ('\n' :: rest) file.readErr h hlen
  simp only [readWordlist, hfile, NewScanner, hcontent, scanLoop, hscan]
  rfl

/-! ## Lemmas on decoding -/

theorem findField_mem (fields : List String) (key f : String)
    (h : findField fields key = some f) : f ∈ fields := by
  unfold findField at h
  split at h
  · rename_i g hg
    cases h
    exact List.mem_of_find?_eq_some hg
  · exact List.mem_of_find?_eq_some h

theorem saveError_ne_none (saved : Option String) (e : String) : saveError saved e ≠ none := by
  cases saved <;> simp [saveError]

/-- Decoding into a string ends without error exactly when there was none
before and the value is fit for a string. -/
theorem decodeString_ok (v : JSON) (cur : String) (err : Option String) :
    (decodeString v cur err).2 = none ↔ (err = none ∧ conformsString v = true) := by
  cases v <;> simp [decodeString, conformsString, saveError_ne_none]

mutual
/-- Decoding into a `GraphQLFieldType` ends without error exactly when there was
none before and the value is fit for a `GraphQLFieldType`. -/
theorem decodeFieldType_ok :
    ∀ (v : JSON) (cur : GraphQLFieldType) (err : Option String),
      (decodeFieldType v cur err).2 = none ↔ (err = none ∧ conformsFieldType v = true)
  | .null, _, _ => by simp [decodeFieldType, conformsFieldType]
  | .object ms, cur, err => by
      rw [decodeFieldType, conformsFieldType]
      exact decodeFieldTypeMembers_ok ms cur err
  | .bool _, _, _ => by simp [decodeFieldType, conformsFieldType, saveError_ne_none]
  | .number _, _, _ => by simp [decodeFieldType, conformsFieldType, saveError_ne_none]
  | .string _, _, _ => by simp [decodeFieldType, conformsFieldType, saveError_ne_none]
  | .array _, _, _ => by simp [decodeFieldType, conformsFieldType, saveError_ne_none]
theorem decodeFieldTypeMembers_ok :
    ∀ (ms : List (String × JSON)) (cur : GraphQLFieldType) (err : Option String),
      (decodeFieldTypeMembers ms cur err).2 = none
        ↔ (err = none ∧ conformsFieldTypeMembers ms = true)
  | [], _, _ => by simp [decodeFieldTypeMembers, conformsFieldTypeMembers]
  | (key, v) :: rest, .mk kind name ofType, err => by
      rw [conformsFieldTypeMembers, Bool.and_eq_true, decodeFieldTypeMembers]
      cases hf : findField ["kind", "name", "ofType"] key with
      | none => simp [hf, decodeFieldTypeMembers_ok rest]
      | some f =>
          have hm := findField_mem _ _ _ hf
          simp only [List.mem_cons, List.mem_singleton, List.not_mem_nil, or_false] at hm
          rcases hm with rfl | rfl | rfl
          · simp only [hf]
            rw [decodeFieldTypeMembers_ok rest, decodeString_ok, and_assoc]
          · simp only [hf]
            rw [decodeFieldTypeMembers_ok rest, decodeString_ok, and_assoc]
          · simp only [hf]
            split
            · rename_i hnull
              cases v <;> simp [JSON.isNull] at hnull
              rw [decodeFieldTypeMembers_ok rest]
              simp [conformsFieldType]
            · rw [decodeFieldTypeMembers_ok rest, decodeFieldType_ok v, and_assoc]
end

/-- A loop over the members of an object ends without error exactly when there
was none before and every member is fit. -/
theorem foldl_members_ok {α μ : Type} (step : α × Option String → μ → α × Option String)
    (member : μ → Bool)
    (h : ∀ s m, (step s m).2 = none ↔ (s.2 = none ∧ member m = true)) :
    ∀ (ms : List μ) (s : α × Option String),
      (ms.foldl step s).2 = none ↔ (s.2 = none ∧ ms.all member = true) := by
  intro ms
  induction ms with
  | nil => intro s; simp
  | cons m ms ih =>
      intro s
      rw [List.foldl_cons, ih, h, List.all_cons, Bool.and_eq_true, and_assoc]

/-- Decoding the elements of an array ends without error exactly when there was
none before and every element is fit. -/
theorem decodeElems_ok {α : Type} (dec : JSON → α → Option String → α × Option String)
    (zero : α) (elem : JSON → Bool)
    (h : ∀ e cur err, (dec e cur err).2 = none ↔ (err = none ∧ elem e = true)) :
    ∀ (es : List JSON) (cur : List α) (err : Option String),
      (decodeElems dec zero es cur err).2 = none ↔ (err = none ∧ es.all elem = true) := by
  intro es
  induction es with
  | nil => intro cur err; simp [decodeElems]
  | cons e es ih =>
      intro cur err
      rw [decodeElems]
      simp only
      rw [ih, h, List.all_cons, Bool.and_eq_true, and_assoc]

theorem decodeSlice_ok {α : Type} (dec : JSON → α → Option String → α × Option String)
    (zero : α) (goType : String) (elem : JSON → Bool)
    (h : ∀ e cur err, (dec e cur err).2 = none ↔ (err = none ∧ elem e = true))
    (v : JSON) (cur : Slice α) (err : Option String) :
    (decodeSlice dec zero goType v cur err).2 = none
      ↔ (err = none ∧ conformsSlice elem v = true) := by
  cases v with
  | array es => exact decodeElems_ok dec zero elem h es (cur.elems ++ cur.stale) err
  | null => simp [decodeSlice, conformsSlice]
  | bool _ => simp [decodeSlice, conformsSlice, saveError_ne_none]
  | number _ => simp [decodeSlice, conformsSlice, saveError_ne_none]
  | string _ => simp [decodeSlice, conformsSlice, saveError_ne_none]
  | object _ => simp [decodeSlice, conformsSlice, saveError_ne_none]

theorem decodeFieldArgMember_ok (s : GraphQLFieldArg × Option String) (m : String × JSON) :
    (decodeFieldArgMember s m).2 = none
      ↔ (s.2 = none ∧ (match findField ["name", "type"] m.1 with
          | some "name" => conformsString m.2
          | some "type" => conformsFieldType m.2
          | _ => true) = true) := by
  unfold decodeFieldArgMember
  cases hf : findField ["name", "type"] m.1 with
  | none => simp
  | some f =>
      have hm := findField_mem _ _ _ hf
      simp only [List.mem_cons, List.mem_singleton, List.not_mem_nil, or_false] at hm
      rcases hm with rfl | rfl
      · simp only [decodeString_ok]
      · simp only [decodeFieldType_ok]

theorem decodeFieldArg_ok (v : JSON) (cur : GraphQLFieldArg) (err : Option String) :
    (decodeFieldArg v cur err).2 = none ↔ (err = none ∧ conformsFieldArg v = true) := by
  cases v with
  | object ms => exact foldl_members_ok _ _ decodeFieldArgMember_ok ms (cur, err)
  | null => simp [decodeFieldArg, conformsFieldArg, conformsStruct]
  | bool _ => simp [decodeFieldArg, conformsFieldArg, conformsStruct, saveError_ne_none]
  | number _ => simp [decodeFieldArg, conformsFieldArg, conformsStruct, saveError_ne_none]
  | string _ => simp [decodeFieldArg, conformsFieldArg, conformsStruct, saveError_ne_none]
  | array _ => simp [decodeFieldArg, conformsFieldArg, conformsStruct, saveError_ne_none]

theorem decodeFieldMember_ok (s : RawField × Option String) (m : String × JSON) :
    (decodeFieldMember s m).2 = none
      ↔ (s.2 = none ∧ (match findField ["name", "args", "type"] m.1 with
          | some "name" => conformsString m.2
          | some "args" => conformsSlice conformsFieldArg m.2
          | some "type" => conformsFieldType m.2
          | _ => true) = true) := by
  unfold decodeFieldMember
  cases hf : findField ["name", "args", "type"] m.1 with
  | none => simp
  | some f =>
      have hm := findField_mem _ _ _ hf
      simp only [List.mem_cons, List.mem_singleton, List.not_mem_nil, or_false] at hm
      rcases hm with rfl | rfl | rfl
      · simp only [decodeString_ok]
      · simp only [decodeSlice_ok _ _ _ _ decodeFieldArg_ok]
      · simp only [decodeFieldType_ok]

theorem decodeField_ok (v : JSON) (cur : RawField) (err : Option String) :
    (decodeField v cur err).2 = none ↔ (err = none ∧ conformsField v = true) := by
  cases v with
  | object ms => exact foldl_members_ok _ _ decodeFieldMember_ok ms (cur, err)
  | null => simp [decodeField, conformsField, conformsStruct]
  | bool _ => simp [decodeField, conformsField, conformsStruct, saveError_ne_none]
  | number _ => simp [decodeField, conformsField, conformsStruct, saveError_ne_none]
  | string _ => simp [decodeField, conformsField, conformsStruct, saveError_ne_none]
  | array _ => simp [decodeField, conformsField, conformsStruct, saveError_ne_none]

theorem decodeTypeMember_ok (s : RawType × Option String) (m : String × JSON) :
    (decodeTypeMember s m).2 = none
      ↔ (s.2 = none ∧ (match findField ["kind", "name", "fields"] m.1 with
          | some "kind" => conformsString m.2
          | some "name" => conformsString m.2
          | some "fields" => conformsSlice conformsField m.2
          | _ => true) = true) := by
  unfold decodeTypeMember
  cases hf : findField ["kind", "name", "fields"] m.1 with
  | none => simp
  | some f =>
      have hm := findField_mem _ _ _ hf
      simp only [List.mem_cons, List.mem_singleton, List.not_mem_nil, or_false] at hm
      rcases hm with rfl | rfl | rfl
      · simp only [decodeString_ok]
      · simp only [decodeString_ok]
      · simp only [decodeSlice_ok _ _ _ _ decodeField_ok]

theorem decodeType_ok (v : JSON) (cur : RawType) (err : Option String) :
    (decodeType v cur err).2 = none ↔ (err = none ∧ conformsType v = true) := by
  cases v with
  | object ms => exact foldl_members_ok _ _ decodeTypeMember_ok ms (cur, err)
  | null => simp [decodeType, conformsType, conformsStruct]
  | bool _ => simp [decodeType, conformsType, conformsStruct, saveError_ne_none]
  | number _ => simp [decodeType, conformsType, conformsStruct, saveError_ne_none]
  | string _ => simp [decodeType, conformsType, conformsStruct, saveError_ne_none]
  | array _ => simp [decodeType, conformsType, conformsStruct, saveError_ne_none]

theorem decodeWrapper_ok {α : Type} (name goType : String)
    (dec : JSON → α → Option String → α × Option String) (inner : JSON → Bool)
    (h : ∀ v cur err, (dec v cur err).2 = none ↔ (err = none ∧ inner v = true))
    (v : JSON) (cur : α) (err : Option String) :
    (decodeWrapper name goType dec v cur err).2 = none
      ↔ (err = none ∧ conformsStruct
          (fun m => if findField [name] m.1 = some name then inner m.2 else true) v = true) := by
  cases v with
  | object ms =>
      refine foldl_members_ok _ _ ?_ ms (cur, err)
      intro s m
      by_cases hf : findField [name] m.1 = some name
      · simp only [hf, if_true, h]
      · simp only [hf, if_false, and_true]
  | null => simp [decodeWrapper, conformsStruct]
  | bool _ => simp [decodeWrapper, conformsStruct, saveError_ne_none]
  | number _ => simp [decodeWrapper, conformsStruct, saveError_ne_none]
  | string _ => simp [decodeWrapper, conformsStruct, saveError_ne_none]
  | array _ => simp [decodeWrapper, conformsStruct, saveError_ne_none]

/-- Decoding a document into `schema` ends without error exactly when the
document is fit for it. -/
theorem decodeSchema_ok (v : JSON) (cur : Slice RawType) (err : Option String) :
    (decodeSchema v cur err).2 = none ↔ (err = none ∧ conformsSchema v = true) :=
  decodeWrapper_ok "data" "struct" _ _
    (decodeWrapper_ok "__schema" "struct" _ _
      (decodeWrapper_ok "types" "struct" _ _
        (decodeSlice_ok decodeType .zero "[]main.GraphQLType" conformsType decodeType_ok))) v cur err

theorem decodeWrapper_hasOnly {α : Type} (name goType : String)
    (dec : JSON → α → Option String → α × Option String)
    (ms : List (String × JSON)) (v : JSON) (cur : α) (err : Option String)
    (h : HasOnly name ms v) :
    decodeWrapper name goType dec (.object ms) cur err = dec v cur err := by
  unfold HasOnly at h
  show ms.foldl (fun s m => if findField [name] m.1 = some name then dec m.2 s.1 s.2 else s)
    (cur, err) = _
  rw [foldl_ite_filter (fun m : String × JSON => findField [name] m.1 = some name)
    (fun s m => dec m.2 s.1 s.2), h]
  rfl

theorem decodeElems_fresh {α : Type} (dec : JSON → α → Option String → α × Option String)
    (zero : α) (elem : JSON → Bool)
    (h : ∀ e cur err, (dec e cur err).2 = none ↔ (err = none ∧ elem e = true)) :
    ∀ es : List JSON, (∀ e ∈ es, elem e = true) →
      decodeElems dec zero es [] none = (es.map fun e => (dec e zero none).1, none) := by
  intro es
  induction es with
  | nil => intro _; rfl
  | cons e es ih =>
      intro hes
      have he : (dec e zero none).2 = none :=
        (h e zero none).mpr ⟨rfl, hes e (List.mem_cons_self e es)⟩
      rw [decodeElems]
      simp only [List.headD_nil, List.tail_nil, he, ih (fun x hx => hes x (List.mem_cons_of_mem e hx)),
        List.map_cons]

theorem decodeSlice_fresh {α : Type} (dec : JSON → α → Option String → α × Option String)
    (zero : α) (goType : String) (elem : JSON → Bool)
    (h : ∀ e cur err, (dec e cur err).2 = none ↔ (err = none ∧ elem e = true))
    (es : List JSON) (hes : ∀ e ∈ es, elem e = true) :
    decodeSlice dec zero goType (.array es) Slice.nil none
      = (⟨es.map fun e => (dec e zero none).1, []⟩, none) := by
  simp only [decodeSlice, Slice.nil, List.append_nil, decodeElems_fresh dec zero elem h es hes,
    List.drop_nil, ite_self]

theorem decodeSchema_envelope (v : JSON) (ts : List JSON) (h : IsEnvelope v ts)
    (hts : ∀ t ∈ ts, conformsType t = true) :
    decodeSchema v Slice.nil none
      = (⟨ts.map fun t => (decodeType t .zero none).1, []⟩, none) := by
  obtain ⟨m1, m2, m3, rfl, h1, h2, h3⟩ := h
  unfold decodeSchema
  simp only [decodeWrapper_hasOnly _ _ _ _ _ _ _ h1, decodeWrapper_hasOnly _ _ _ _ _ _ _ h2,
    decodeWrapper_hasOnly _ _ _ _ _ _ _ h3]
  exact decodeSlice_fresh decodeType .zero _ conformsType decodeType_ok ts hts

theorem encodeFieldType_isNull (ft : GraphQLFieldType) : (encodeFieldType ft).isNull = false := by
  cases ft with
  | mk kind name o => cases o <;> rfl

/-- Decoding the JSON text of a field type gives the field type back. -/
theorem decodeFieldType_encode :
    ∀ (ft cur : GraphQLFieldType) (err : Option String),
      decodeFieldType (encodeFieldType ft) cur err = (ft, err)
  | .mk kind name none, .mk k n o, err => by
      have h1 : findField ["kind", "name", "ofType"] "kind" = some "kind" := by decide
      have h2 : findField ["kind", "name", "ofType"] "name" = some "name" := by decide
      have h3 : findField ["kind", "name", "ofType"] "ofType" = some "ofType" := by decide
      simp [encodeFieldType, decodeFieldType, decodeFieldTypeMembers, h1, h2, h3, decodeString,
        JSON.isNull]
  | .mk kind name (some ft), .mk k n o, err => by
      have h1 : findField ["kind", "name", "ofType"] "kind" = some "kind" := by decide
      have h2 : findField ["kind", "name", "ofType"] "name" = some "name" := by decide
      have h3 : findField ["kind", "name", "ofType"] "ofType" = some "ofType" := by decide
      simp [encodeFieldType, decodeFieldType, decodeFieldTypeMembers, h1, h2, h3, decodeString,
        encodeFieldType_isNull, decodeFieldType_encode ft]

theorem decodeFieldArg_encode (a cur : GraphQLFieldArg) (err : Option String) :
    decodeFieldArg (encodeFieldArg a) cur err = (a, err) := by
  have h1 : findField ["name", "type"] "name" = some "name" := by decide
  have h2 : findField ["name", "type"] "type" = some "type" := by decide
  simp [encodeFieldArg, decodeFieldArg, decodeFieldArgMember, h1, h2, decodeString,
    decodeFieldType_encode]

theorem decodeElems_encode {α β : Type} (dec : JSON → β → Option String → β × Option String)
    (zero : β) (enc : α → JSON) (raw : α → β)
    (h : ∀ a err, dec (enc a) zero err = (raw a, err)) :
    ∀ (l : List α) (err : Option String),
      decodeElems dec zero (l.map enc) [] err = (l.map raw, err) := by
  intro l
  induction l with
  | nil => intro err; rfl
  | cons a l ih => intro err; simp [decodeElems, h, ih]

theorem decodeField_encode (f : GraphQLField) (err : Option String) :
    decodeField (encodeField f) .zero err = (⟨f.name, ⟨f.args, []⟩, f.type⟩, err) := by
  have h1 : findField ["name", "args", "type"] "name" = some "name" := by decide
  have h2 : findField ["name", "args", "type"] "args" = some "args" := by decide
  have h3 : findField ["name", "args", "type"] "type" = some "type" := by decide
  simp [encodeField, decodeField, decodeFieldMember, h1, h2, h3, decodeString, decodeSlice,
    decodeFieldType_encode, RawField.zero, Slice.nil,
    decodeElems_encode decodeFieldArg .zero encodeFieldArg id
      (fun a err => decodeFieldArg_encode a .zero err)]

theorem decodeType_encode (t : GraphQLType) (err : Option String) :
    decodeType (encodeType t) .zero err
      = (⟨t.kind, t.name, ⟨t.fields.map fun f => ⟨f.name, ⟨f.args, []⟩, f.type⟩, []⟩⟩, err) := by
  have h1 : findField ["kind", "name", "fields"] "kind" = some "kind" := by decide
  have h2 : findField ["kind", "name", "fields"] "name" = some "name" := by decide
  have h3 : findField ["kind", "name", "fields"] "fields" = some "fields" := by decide
  simp [encodeType, decodeType, decodeTypeMember, h1, h2, h3, decodeString, decodeSlice,
    RawType.zero, Slice.nil,
    decodeElems_encode decodeField .zero encodeField
      (fun f => (⟨f.name, ⟨f.args, []⟩, f.type⟩ : RawField)) decodeField_encode]

theorem toType_decodeType_encode (t : GraphQLType) :
    (decodeType (encodeType t) .zero none).1.toType = t := by
  rw [decodeType_encode]
  simp [RawType.toType, RawField.toField, Function.comp_def]

/-! ## Lemmas on what a decoded value holds -/

/-- A loop over the members of an object none of which raises an error, the
struct member `get` being given by at most one of them: after the loop the
struct member holds what that member of the object was decoded to. -/
theorem foldl_member {S α μ : Type} (step : S × Option String → μ → S × Option String)
    (get : S → α) (p : μ → Bool) (upd : α → μ → α)
    (hp : ∀ s m, s.2 = none → p m = true → get (step s m).1 = upd (get s.1) m)
    (hn : ∀ s m, p m = false → get (step s m).1 = get s.1) :
    ∀ (ms : List μ) (s : S × Option String), s.2 = none →
      (∀ m ∈ ms, ∀ s : S × Option String, s.2 = none → (step s m).2 = none) →
      (ms.filter p).length ≤ 1 →
      get (ms.foldl step s).1
        = match ms.find? p with
          | some m => upd (get s.1) m
          | none => get s.1 := by
  intro ms
  induction ms with
  | nil => intro s _ _ _; rfl
  | cons m ms ih =>
      intro s hs he hu
      have hm := he m (List.mem_cons_self m ms) s hs
      have hrest : ∀ x ∈ ms, ∀ s : S × Option String, s.2 = none → (step s x).2 = none :=
        fun x hx => he x (List.mem_cons_of_mem m hx)
      rw [List.foldl_cons]
      cases hpm : p m with
      | true =>
          have hnil : ms.filter p = [] := by
            rw [List.filter_cons, if_pos hpm, List.length_cons] at hu
            exact List.length_eq_zero.mp (by omega)
          have hfind : ms.find? p = none := by
            rw [List.find?_eq_none]
            intro x hx hpx
            have : x ∈ ms.filter p := List.mem_filter.mpr ⟨hx, hpx⟩
            rw [hnil] at this
            exact absurd this (List.not_mem_nil x)
          rw [ih (step s m) hm hrest (by rw [hnil]; simp), hfind, List.find?_cons, hpm]
          exact hp s m hs hpm
      | false =>
          have hu2 : (ms.filter p).length ≤ 1 := by
            rw [List.filter_cons, if_neg (by simp [hpm])] at hu
            exact hu
          rw [ih (step s m) hm hrest hu2, List.find?_cons, hpm, hn s m hpm]

theorem uniqueKeys_filter (fields : List String) (name : String) (ms : List (String × JSON))
    (hname : name ∈ fields) (h : uniqueKeys fields ms = true) :
    (ms.filter fun m => decide (findField fields m.1 = some name)).length ≤ 1 := by
  unfold uniqueKeys at h
  rw [List.all_eq_true] at h
  simpa using h name hname

/-- The value `lookup` finds is `null` or the value of a member of the object
that is decoded into the struct member. -/
theorem lookup_cases (fields : List String) (name : String) (ms : List (String × JSON)) :
    (ms.find? (fun m => decide (findField fields m.1 = some name)) = none
        ∧ lookup fields name ms = .null)
      ∨ ∃ m, ms.find? (fun m => decide (findField fields m.1 = some name)) = some m
          ∧ m ∈ ms ∧ findField fields m.1 = some name ∧ lookup fields name ms = m.2 := by
  unfold lookup
  cases h : ms.find? (fun m => decide (findField fields m.1 = some name)) with
  | none => exact Or.inl ⟨rfl, rfl⟩
  | some m =>
      exact Or.inr ⟨m, rfl, List.mem_of_find?_eq_some h,
        by simpa using List.find?_some h, rfl⟩

theorem decodeString_spec (v : JSON) (h : conformsString v = true) :
    (decodeString v "" none).1 = specString v := by
  cases v <;> simp_all [decodeString, conformsString, specString]

theorem decodeFieldTypeMembers_eq_foldl :
    ∀ (ms : List (String × JSON)) (cur : GraphQLFieldType) (err : Option String),
      decodeFieldTypeMembers ms cur err = ms.foldl decodeFieldTypeMember (cur, err) := by
  intro ms
  induction ms with
  | nil => intro cur err; rfl
  | cons m ms ih =>
      intro cur err
      obtain ⟨key, v⟩ := m
      obtain ⟨kind, name, ofType⟩ := cur
      rw [decodeFieldTypeMembers, List.foldl_cons]
      cases hf : findField ["kind", "name", "ofType"] key with
      | none => simp [decodeFieldTypeMember, hf, ih]
      | some f =>
          have hm := findField_mem _ _ _ hf
          simp only [List.mem_cons, List.mem_singleton, List.not_mem_nil, or_false] at hm
          rcases hm with rfl | rfl | rfl
          · simp [decodeFieldTypeMember, hf, ih, GraphQLFieldType.kind, GraphQLFieldType.name,
              GraphQLFieldType.ofType]
          · simp [decodeFieldTypeMember, hf, ih, GraphQLFieldType.kind, GraphQLFieldType.name,
              GraphQLFieldType.ofType]
          · by_cases hnull : v.isNull = true
            · simp [decodeFieldTypeMember, hf, ih, hnull, GraphQLFieldType.kind,
                GraphQLFieldType.name, GraphQLFieldType.ofType]
            · simp [decodeFieldTypeMember, hf, ih, hnull, GraphQLFieldType.kind,
                GraphQLFieldType.name, GraphQLFieldType.ofType]

theorem conformsFieldTypeMembers_iff (ms : List (String × JSON)) :
    conformsFieldTypeMembers ms = true
      ↔ ∀ m ∈ ms, (match findField ["kind", "name", "ofType"] m.1 with
          | some "kind" => conformsString m.2
          | some "name" => conformsString m.2
          | some "ofType" => conformsFieldType m.2
          | _ => true) = true := by
  induction ms with
  | nil => simp [conformsFieldTypeMembers]
  | cons m ms ih =>
      obtain ⟨key, v⟩ := m
      rw [conformsFieldTypeMembers, Bool.and_eq_true, ih]
      simp

theorem decodeFieldTypeMember_ok (s : GraphQLFieldType × Option String) (m : String × JSON) :
    (decodeFieldTypeMember s m).2 = none
      ↔ (s.2 = none ∧ (match findField ["kind", "name", "ofType"] m.1 with
          | some "kind" => conformsString m.2
          | some "name" => conformsString m.2
          | some "ofType" => conformsFieldType m.2
          | _ => true) = true) := by
  unfold decodeFieldTypeMember
  cases hf : findField ["kind", "name", "ofType"] m.1 with
  | none => simp
  | some f =>
      have hm := findField_mem _ _ _ hf
      simp only [List.mem_cons, List.mem_singleton, List.not_mem_nil, or_false] at hm
      rcases hm with rfl | rfl | rfl
      · simp only [decodeString_ok]
      · simp only [decodeString_ok]
      · simp only
        split
        · rename_i hnull
          have : m.2 = JSON.null := by
            cases hv : m.2 <;> simp [hv, JSON.isNull] at hnull
            rfl
          simp [this, conformsFieldType]
        · simp only [decodeFieldType_ok]

theorem specOfType_eq (ms : List (String × JSON)) :
    specOfType ms
      = match ms.find? (fun m => decide (findField ["kind", "name", "ofType"] m.1 = some "ofType")) with
        | some m => if m.2.isNull then none else some (specFieldType m.2)
        | none => none := by
  induction ms with
  | nil => rfl
  | cons m ms ih =>
      obtain ⟨key, v⟩ := m
      rw [specOfType, List.find?_cons]
      by_cases h : findField ["kind", "name", "ofType"] key = some "ofType"
      · simp [h]
      · simp [h, ih]

theorem fieldType_eta (a : GraphQLFieldType) : a = .mk a.kind a.name a.ofType := by
  cases a; rfl

/-- An object fit for a field type that gives no member twice is decoded, from
the zero value, into what it says, provided this holds of the values of its
members `ofType`. -/
theorem decodeFieldType_object (ms : List (String × JSON))
    (hc : conformsFieldTypeMembers ms = true)
    (hu : uniqueKeys ["kind", "name", "ofType"] ms = true)
    (hrec : ∀ m ∈ ms, findField ["kind", "name", "ofType"] m.1 = some "ofType" →
      decodeFieldType m.2 .zero none = (specFieldType m.2, none)) :
    decodeFieldType (.object ms) .zero none = (specFieldType (.object ms), none) := by
  rw [decodeFieldType, decodeFieldTypeMembers_eq_foldl]
  have hconf := (conformsFieldTypeMembers_iff ms).mp hc
  have he : ∀ m ∈ ms, ∀ s : GraphQLFieldType × Option String, s.2 = none →
      (decodeFieldTypeMember s m).2 = none :=
    fun m hm s hs => (decodeFieldTypeMember_ok s m).mpr ⟨hs, hconf m hm⟩
  have h2 : (ms.foldl decodeFieldTypeMember (.zero, none)).2 = none :=
    (foldl_members_ok _ _ decodeFieldTypeMember_ok ms _).mpr
      ⟨rfl, List.all_eq_true.mpr hconf⟩
  have hk : (ms.foldl decodeFieldTypeMember (.zero, none)).1.kind
      = specString (lookup ["kind", "name", "ofType"] "kind" ms) := by
    rw [foldl_member decodeFieldTypeMember GraphQLFieldType.kind
      (fun m => decide (findField ["kind", "name", "ofType"] m.1 = some "kind"))
      (fun x m => (decodeString m.2 x none).1)
      (fun s m hs hpm => by
        obtain ⟨x, e⟩ := s
        have hf : findField ["kind", "name", "ofType"] m.1 = some "kind" := by simpa using hpm
        simp only at hs
        subst hs
        simp [decodeFieldTypeMember, hf, GraphQLFieldType.kind])
      (fun s m hpm => by
        have hf : findField ["kind", "name", "ofType"] m.1 ≠ some "kind" := by simpa using hpm
        cases hf2 : findField ["kind", "name", "ofType"] m.1 with
        | none => simp [decodeFieldTypeMember, hf2]
        | some f =>
            have hm := findField_mem _ _ _ hf2
            simp only [List.mem_cons, List.mem_singleton, List.not_mem_nil, or_false] at hm
            rcases hm with rfl | rfl | rfl
            · exact absurd hf2 hf
            · simp [decodeFieldTypeMember, hf2, GraphQLFieldType.kind]
            · by_cases hnull : m.2.isNull = true <;>
                simp [decodeFieldTypeMember, hf2, hnull, GraphQLFieldType.kind])
      ms (.zero, none) rfl he (uniqueKeys_filter _ "kind" ms (by simp) hu)]
    rcases lookup_cases ["kind", "name", "ofType"] "kind" ms with
      ⟨hfind, hl⟩ | ⟨m, hfind, hmem, hf, hl⟩
    · rw [hfind, hl]; rfl
    · rw [hfind, hl]
      exact decodeString_spec m.2 (by simpa [hf] using hconf m hmem)
  have hn : (ms.foldl decodeFieldTypeMember (.zero, none)).1.name
      = specString (lookup ["kind", "name", "ofType"] "name" ms) := by
    rw [foldl_member decodeFieldTypeMember GraphQLFieldType.name
      (fun m => decide (findField ["kind", "name", "ofType"] m.1 = some "name"))
      (fun x m => (decodeString m.2 x none).1)
      (fun s m hs hpm => by
        obtain ⟨x, e⟩ := s
        have hf : findField ["kind", "name", "ofType"] m.1 = some "name" := by simpa using hpm
        simp only at hs
        subst hs
        simp [decodeFieldTypeMember, hf, GraphQLFieldType.name])
      (fun s m hpm => by
        have hf : findField ["kind", "name", "ofType"] m.1 ≠ some "name" := by simpa using hpm
        cases hf2 : findField ["kind", "name", "ofType"] m.1 with
        | none => simp [decodeFieldTypeMember, hf2]
        | some f =>
            have hm := findField_mem _ _ _ hf2
            simp only [List.mem_cons, List.mem_singleton, List.not_mem_nil, or_false] at hm
            rcases hm with rfl | rfl | rfl
            · simp [decodeFieldTypeMember, hf2, GraphQLFieldType.name]
            · exact absurd hf2 hf
            · by_cases hnull : m.2.isNull = true <;>
                simp [decodeFieldTypeMember, hf2, hnull, GraphQLFieldType.name])
      ms (.zero, none) rfl he (uniqueKeys_filter _ "name" ms (by simp) hu)]
    rcases lookup_cases ["kind", "name", "ofType"] "name" ms with
      ⟨hfind, hl⟩ | ⟨m, hfind, hmem, hf, hl⟩
    · rw [hfind, hl]; rfl
    · rw [hfind, hl]
      exact decodeString_spec m.2 (by simpa [hf] using hconf m hmem)
  have ho : (ms.foldl decodeFieldTypeMember (.zero, none)).1.ofType = specOfType ms := by
    rw [foldl_member decodeFieldTypeMember GraphQLFieldType.ofType
      (fun m => decide (findField ["kind", "name", "ofType"] m.1 = some "ofType"))
      (fun x m => if m.2.isNull then none else some (decodeFieldType m.2 (x.getD .zero) none).1)
      (fun s m hs hpm => by
        obtain ⟨x, e⟩ := s
        have hf : findField ["kind", "name", "ofType"] m.1 = some "ofType" := by simpa using hpm
        simp only at hs
        subst hs
        by_cases hnull : m.2.isNull = true <;>
          simp [decodeFieldTypeMember, hf, hnull, GraphQLFieldType.ofType])
      (fun s m hpm => by
        have hf : findField ["kind", "name", "ofType"] m.1 ≠ some "ofType" := by simpa using hpm
        cases hf2 : findField ["kind", "name", "ofType"] m.1 with
        | none => simp [decodeFieldTypeMember, hf2]
        | some f =>
            have hm := findField_mem _ _ _ hf2
            simp only [List.mem_cons, List.mem_singleton, List.not_mem_nil, or_false] at hm
            rcases hm with rfl | rfl | rfl
            · simp [decodeFieldTypeMember, hf2, GraphQLFieldType.ofType]
            · simp [decodeFieldTypeMember, hf2, GraphQLFieldType.ofType]
            · exact absurd hf2 hf)
      ms (.zero, none) rfl he (uniqueKeys_filter _ "ofType" ms (by simp) hu), specOfType_eq]
    cases hfind : ms.find?
        (fun m => decide (findField ["kind", "name", "ofType"] m.1 = some "ofType")) with
    | none => rfl
    | some m =>
        have hmem := List.mem_of_find?_eq_some hfind
        have hf : findField ["kind", "name", "ofType"] m.1 = some "ofType" := by
          simpa using List.find?_some hfind
        simp only
        split
        · rfl
        · show some (decodeFieldType m.2 .zero none).1 = _
          rw [hrec m hmem hf]
  refine Prod.ext ?_ h2
  rw [fieldType_eta (ms.foldl decodeFieldTypeMember (.zero, none)).1, hk, hn, ho]
  rfl

mutual
/-- A value fit for a field type, none of whose objects gives a member twice, is
decoded from the zero value into the field type it says. -/
theorem decodeFieldType_spec :
    ∀ (v : JSON), conformsFieldType v = true → uniqueFieldType v = true →
      decodeFieldType v .zero none = (specFieldType v, none)
  | .null, _, _ => rfl
  | .object ms, hc, hu => by
      rw [conformsFieldType] at hc
      rw [uniqueFieldType, Bool.and_eq_true] at hu
      exact decodeFieldType_object ms hc hu.1 (decodeOfType_spec ms hc hu.2)
  | .bool _, hc, _ => by simp [conformsFieldType] at hc
  | .number _, hc, _ => by simp [conformsFieldType] at hc
  | .string _, hc, _ => by simp [conformsFieldType] at hc
  | .array _, hc, _ => by simp [conformsFieldType] at hc
theorem decodeOfType_spec :
    ∀ (ms : List (String × JSON)), conformsFieldTypeMembers ms = true →
      uniqueOfType ms = true →
      ∀ m ∈ ms, findField ["kind", "name", "ofType"] m.1 = some "ofType" →
        decodeFieldType m.2 .zero none = (specFieldType m.2, none)
  | [], _, _ => by simp
  | (key, v) :: rest, hc, hu => by
      intro m hm hf
      rw [conformsFieldTypeMembers, Bool.and_eq_true] at hc
      rw [uniqueOfType, Bool.and_eq_true] at hu
      rcases List.mem_cons.mp hm with rfl | hm
      · simp only at hf
        exact decodeFieldType_spec v (by simpa [hf] using hc.1) (by simpa [hf] using hu.1)
      · exact decodeOfType_spec rest hc.2 hu.2 m hm hf
end

theorem decodeFieldArg_spec (v : JSON) (hc : conformsFieldArg v = true)
    (hu : uniqueFieldArg v = true) :
    decodeFieldArg v .zero none = (specFieldArg v, none) := by
  cases v with
  | null => rfl
  | bool _ => simp [conformsFieldArg, conformsStruct] at hc
  | number _ => simp [conformsFieldArg, conformsStruct] at hc
  | string _ => simp [conformsFieldArg, conformsStruct] at hc
  | array _ => simp [conformsFieldArg, conformsStruct] at hc
  | object ms =>
      have hconf : ∀ m ∈ ms, (match findField ["name", "type"] m.1 with
          | some "name" => conformsString m.2
          | some "type" => conformsFieldType m.2
          | _ => true) = true := by
        simpa [conformsFieldArg, conformsStruct] using hc
      have hu2 : uniqueKeys ["name", "type"] ms = true ∧ ∀ m ∈ ms,
          (match findField ["name", "type"] m.1 with
            | some "type" => uniqueFieldType m.2
            | _ => true) = true := by
        simpa [uniqueFieldArg, uniqueStruct] using hu
      obtain ⟨hu, humem⟩ := hu2
      have he : ∀ m ∈ ms, ∀ s : GraphQLFieldArg × Option String, s.2 = none →
          (decodeFieldArgMember s m).2 = none :=
        fun m hm s hs => (decodeFieldArgMember_ok s m).mpr ⟨hs, hconf m hm⟩
      have h2 : (ms.foldl decodeFieldArgMember (.zero, none)).2 = none :=
        (foldl_members_ok _ _ decodeFieldArgMember_ok ms _).mpr
          ⟨rfl, List.all_eq_true.mpr hconf⟩
      have hn : (ms.foldl decodeFieldArgMember (.zero, none)).1.name
          = specString (lookup ["name", "type"] "name" ms) := by
        rw [foldl_member decodeFieldArgMember GraphQLFieldArg.name
          (fun m => decide (findField ["name", "type"] m.1 = some "name"))
          (fun x m => (decodeString m.2 x none).1)
          (fun s m hs hpm => by
            obtain ⟨x, e⟩ := s
            have hf : findField ["name", "type"] m.1 = some "name" := by simpa using hpm
            simp only at hs
            subst hs
            simp [decodeFieldArgMember, hf])
          (fun s m hpm => by
            have hf : findField ["name", "type"] m.1 ≠ some "name" := by simpa using hpm
            cases hf2 : findField ["name", "type"] m.1 with
            | none => simp [decodeFieldArgMember, hf2]
            | some f =>
                have hm := findField_mem _ _ _ hf2
                simp only [List.mem_cons, List.mem_singleton, List.not_mem_nil, or_false] at hm
                rcases hm with rfl | rfl
                · exact absurd hf2 hf
                · simp [decodeFieldArgMember, hf2])
          ms (.zero, none) rfl he (uniqueKeys_filter _ "name" ms (by simp) hu)]
        rcases lookup_cases ["name", "type"] "name" ms with
          ⟨hfind, hl⟩ | ⟨m, hfind, hmem, hf, hl⟩
        · rw [hfind, hl]; rfl
        · rw [hfind, hl]
          exact decodeString_spec m.2 (by simpa [hf] using hconf m hmem)
      have ht : (ms.foldl decodeFieldArgMember (.zero, none)).1.type
          = specFieldType (lookup ["name", "type"] "type" ms) := by
        rw [foldl_member decodeFieldArgMember GraphQLFieldArg.type
          (fun m => decide (findField ["name", "type"] m.1 = some "type"))
          (fun x m => (decodeFieldType m.2 x none).1)
          (fun s m hs hpm => by
            obtain ⟨x, e⟩ := s
            have hf : findField ["name", "type"] m.1 = some "type" := by simpa using hpm
            simp only at hs
            subst hs
            simp [decodeFieldArgMember, hf])
          (fun s m hpm => by
            have hf : findField ["name", "type"] m.1 ≠ some "type" := by simpa using hpm
            cases hf2 : findField ["name", "type"] m.1 with
            | none => simp [decodeFieldArgMember, hf2]
            | some f =>
                have hm := findField_mem _ _ _ hf2
                simp only [List.mem_cons, List.mem_singleton, List.not_mem_nil, or_false] at hm
                rcases hm with rfl | rfl
                · simp [decodeFieldArgMember, hf2]
                · exact absurd hf2 hf)
          ms (.zero, none) rfl he (uniqueKeys_filter _ "type" ms (by simp) hu)]
        rcases lookup_cases ["name", "type"] "type" ms with
          ⟨hfind, hl⟩ | ⟨m, hfind, hmem, hf, hl⟩
        · rw [hfind, hl]; rfl
        · rw [hfind, hl]
          show (decodeFieldType m.2 .zero none).1 = _
          rw [decodeFieldType_spec m.2 (by simpa [hf] using hconf m hmem)
            (by simpa [hf] using humem m hmem)]
      show ms.foldl decodeFieldArgMember (.zero, none) = _
      refine Prod.ext ?_ h2
      show (ms.foldl decodeFieldArgMember (.zero, none)).1
        = ⟨specString (lookup ["name", "type"] "name" ms),
            specFieldType (lookup ["name", "type"] "type" ms)⟩
      rw [← hn, ← ht]

/-- A value fit for a slice, none of whose objects gives a member twice, is
decoded into a nil slice as the list it says. -/
theorem decodeSlice_spec {α β : Type} (dec : JSON → α → Option String → α × Option String)
    (zero : α) (goType : String) (elem uelem : JSON → Bool) (view : α → β) (spec : JSON → β)
    (hok : ∀ e cur err, (dec e cur err).2 = none ↔ (err = none ∧ elem e = true))
    (hspec : ∀ e, elem e = true → uelem e = true → view (dec e zero none).1 = spec e)
    (v : JSON) (hc : conformsSlice elem v = true) (hu : uniqueSlice uelem v = true) :
    (decodeSlice dec zero goType v Slice.nil none).1.elems.map view = specSlice spec v := by
  cases v with
  | null => rfl
  | bool _ => simp [conformsSlice] at hc
  | number _ => simp [conformsSlice] at hc
  | string _ => simp [conformsSlice] at hc
  | object _ => simp [conformsSlice] at hc
  | array es =>
      have hc2 : ∀ e ∈ es, elem e = true := by simpa [conformsSlice] using hc
      have hu2 : ∀ e ∈ es, uelem e = true := by simpa [uniqueSlice] using hu
      rw [decodeSlice_fresh dec zero goType elem hok es hc2]
      show (es.map fun e => (dec e zero none).1).map view = es.map spec
      rw [List.map_map]
      exact List.map_congr_left fun e he => hspec e (hc2 e he) (hu2 e he)

/-- A value fit for a field, none of whose objects gives a member twice, is
decoded from the zero value without error into the field it says. -/
theorem decodeField_spec (v : JSON) (hc : conformsField v = true) (hu : uniqueField v = true) :
    (decodeField v .zero none).2 = none ∧ (decodeField v .zero none).1.toField = specField v := by
  cases v with
  | null => exact ⟨rfl, rfl⟩
  | bool _ => simp [conformsField, conformsStruct] at hc
  | number _ => simp [conformsField, conformsStruct] at hc
  | string _ => simp [conformsField, conformsStruct] at hc
  | array _ => simp [conformsField, conformsStruct] at hc
  | object ms =>
      have hconf : ∀ m ∈ ms, (match findField ["name", "args", "type"] m.1 with
          | some "name" => conformsString m.2
          | some "args" => conformsSlice conformsFieldArg m.2
          | some "type" => conformsFieldType m.2
          | _ => true) = true := by
        simpa [conformsField, conformsStruct] using hc
      have hu2 : uniqueKeys ["name", "args", "type"] ms = true ∧ ∀ m ∈ ms,
          (match findField ["name", "args", "type"] m.1 with
            | some "args" => uniqueSlice uniqueFieldArg m.2
            | some "type" => uniqueFieldType m.2
            | _ => true) = true := by
        simpa [uniqueField, uniqueStruct] using hu
      obtain ⟨hu, humem⟩ := hu2
      have he : ∀ m ∈ ms, ∀ s : RawField × Option String, s.2 = none →
          (decodeFieldMember s m).2 = none :=
        fun m hm s hs => (decodeFieldMember_ok s m).mpr ⟨hs, hconf m hm⟩
      have h2 : (ms.foldl decodeFieldMember (.zero, none)).2 = none :=
        (foldl_members_ok _ _ decodeFieldMember_ok ms _).mpr
          ⟨rfl, List.all_eq_true.mpr hconf⟩
      have hn : (ms.foldl decodeFieldMember (.zero, none)).1.name
          = specString (lookup ["name", "args", "type"] "name" ms) := by
        rw [foldl_member decodeFieldMember RawField.name
          (fun m => decide (findField ["name", "args", "type"] m.1 = some "name"))
          (fun x m => (decodeString m.2 x none).1)
          (fun s m hs hpm => by
            obtain ⟨x, e⟩ := s
            have hf : findField ["name", "args", "type"] m.1 = some "name" := by simpa using hpm
            simp only at hs
            subst hs
            simp [decodeFieldMember, hf])
          (fun s m hpm => by
            have hf : findField ["name", "args", "type"] m.1 ≠ some "name" := by simpa using hpm
            cases hf2 : findField ["name", "args", "type"] m.1 with
            | none => simp [decodeFieldMember, hf2]
            | some f =>
                have hm := findField_mem _ _ _ hf2
                simp only [List.mem_cons, List.mem_singleton, List.not_mem_nil, or_false] at hm
                rcases hm with rfl | rfl | rfl
                · exact absurd hf2 hf
                · simp [decodeFieldMember, hf2]
                · simp [decodeFieldMember, hf2])
          ms (.zero, none) rfl he (uniqueKeys_filter _ "name" ms (by simp) hu)]
        rcases lookup_cases ["name", "args", "type"] "name" ms with
          ⟨hfind, hl⟩ | ⟨m, hfind, hmem, hf, hl⟩
        · rw [hfind, hl]; rfl
        · rw [hfind, hl]
          exact decodeString_spec m.2 (by simpa [hf] using hconf m hmem)
      have ha : (ms.foldl decodeFieldMember (.zero, none)).1.args.elems
          = specSlice specFieldArg (lookup ["name", "args", "type"] "args" ms) := by
        rw [foldl_member decodeFieldMember RawField.args
          (fun m => decide (findField ["name", "args", "type"] m.1 = some "args"))
          (fun x m => (decodeSlice decodeFieldArg .zero "[]main.GraphQLFieldArg" m.2 x none).1)
          (fun s m hs hpm => by
            obtain ⟨x, e⟩ := s
            have hf : findField ["name", "args", "type"] m.1 = some "args" := by simpa using hpm
            simp only at hs
            subst hs
            simp [decodeFieldMember, hf])
          (fun s m hpm => by
            have hf : findField ["name", "args", "type"] m.1 ≠ some "args" := by simpa using hpm
            cases hf2 : findField ["name", "args", "type"] m.1 with
            | none => simp [decodeFieldMember, hf2]
            | some f =>
                have hm := findField_mem _ _ _ hf2
                simp only [List.mem_cons, List.mem_singleton, List.not_mem_nil, or_false] at hm
                rcases hm with rfl | rfl | rfl
                · simp [decodeFieldMember, hf2]
                · exact absurd hf2 hf
                · simp [decodeFieldMember, hf2])
          ms (.zero, none) rfl he (uniqueKeys_filter _ "args" ms (by simp) hu)]
        rcases lookup_cases ["name", "args", "type"] "args" ms with
          ⟨hfind, hl⟩ | ⟨m, hfind, hmem, hf, hl⟩
        · rw [hfind, hl]; rfl
        · rw [hfind, hl]
          have := decodeSlice_spec decodeFieldArg .zero "[]main.GraphQLFieldArg" conformsFieldArg
            uniqueFieldArg id specFieldArg decodeFieldArg_ok
            (fun e h1 h2 => by rw [decodeFieldArg_spec e h1 h2]; rfl) m.2
            (by simpa [hf] using hconf m hmem) (by simpa [hf] using humem m hmem)
          simpa using this
      have ht : (ms.foldl decodeFieldMember (.zero, none)).1.type
          = specFieldType (lookup ["name", "args", "type"] "type" ms) := by
        rw [foldl_member decodeFieldMember RawField.type
          (fun m => decide (findField ["name", "args", "type"] m.1 = some "type"))
          (fun x m => (decodeFieldType m.2 x none).1)
          (fun s m hs hpm => by
            obtain ⟨x, e⟩ := s
            have hf : findField ["name", "args", "type"] m.1 = some "type" := by simpa using hpm
            simp only at hs
            subst hs
            simp [decodeFieldMember, hf])
          (fun s m hpm => by
            have hf : findField ["name", "args", "type"] m.1 ≠ some "type" := by simpa using hpm
            cases hf2 : findField ["name", "args", "type"] m.1 with
            | none => simp [decodeFieldMember, hf2]
            | some f =>
                have hm := findField_mem _ _ _ hf2
                simp only [List.mem_cons, List.mem_singleton, List.not_mem_nil, or_false] at hm
                rcases hm with rfl | rfl | rfl
                · simp [decodeFieldMember, hf2]
                · simp [decodeFieldMember, hf2]
                · exact absurd hf2 hf)
          ms (.zero, none) rfl he (uniqueKeys_filter _ "type" ms (by simp) hu)]
        rcases lookup_cases ["name", "args", "type"] "type" ms with
          ⟨hfind, hl⟩ | ⟨m, hfind, hmem, hf, hl⟩
        · rw [hfind, hl]; rfl
        · rw [hfind, hl]
          show (decodeFieldType m.2 .zero none).1 = _
          rw [decodeFieldType_spec m.2 (by simpa [hf] using hconf m hmem)
            (by simpa [hf] using humem m hmem)]
      refine ⟨h2, ?_⟩
      show (⟨(ms.foldl decodeFieldMember (.zero, none)).1.name,
          (ms.foldl decodeFieldMember (.zero, none)).1.args.elems,
          (ms.foldl decodeFieldMember (.zero, none)).1.type⟩ : GraphQLField) = _
      rw [hn, ha, ht]
      rfl

/-- A value fit for a type, none of whose objects gives a member twice, is
decoded from the zero value without error into the type it says. -/
theorem decodeType_spec (v : JSON) (hc : conformsType v = true) (hu : uniqueType v = true) :
    (decodeType v .zero none).2 = none ∧ (decodeType v .zero none).1.toType = specType v := by
  cases v with
  | null => exact ⟨rfl, rfl⟩
  | bool _ => simp [conformsType, conformsStruct] at hc
  | number _ => simp [conformsType, conformsStruct] at hc
  | string _ => simp [conformsType, conformsStruct] at hc
  | array _ => simp [conformsType, conformsStruct] at hc
  | object ms =>
      have hconf : ∀ m ∈ ms, (match findField ["kind", "name", "fields"] m.1 with
          | some "kind" => conformsString m.2
          | some "name" => conformsString m.2
          | some "fields" => conformsSlice conformsField m.2
          | _ => true) = true := by
        simpa [conformsType, conformsStruct] using hc
      have hu2 : uniqueKeys ["kind", "name", "fields"] ms = true ∧ ∀ m ∈ ms,
          (match findField ["kind", "name", "fields"] m.1 with
            | some "fields" => uniqueSlice uniqueField m.2
            | _ => true) = true := by
        simpa [uniqueType, uniqueStruct] using hu
      obtain ⟨hu, humem⟩ := hu2
      have he : ∀ m ∈ ms, ∀ s : RawType × Option String, s.2 = none →
          (decodeTypeMember s m).2 = none :=
        fun m hm s hs => (decodeTypeMember_ok s m).mpr ⟨hs, hconf m hm⟩
      have h2 : (ms.foldl decodeTypeMember (.zero, none)).2 = none :=
        (foldl_members_ok _ _ decodeTypeMember_ok ms _).mpr
          ⟨rfl, List.all_eq_true.mpr hconf⟩
      have hk : (ms.foldl decodeTypeMember (.zero, none)).1.kind
          = specString (lookup ["kind", "name", "fields"] "kind" ms) := by
        rw [foldl_member decodeTypeMember RawType.kind
          (fun m => decide (findField ["kind", "name", "fields"] m.1 = some "kind"))
          (fun x m => (decodeString m.2 x none).1)
          (fun s m hs hpm => by
            obtain ⟨x, e⟩ := s
            have hf : findField ["kind", "name", "fields"] m.1 = some "kind" := by simpa using hpm
            simp only at hs
            subst hs
            simp [decodeTypeMember, hf])
          (fun s m hpm => by
            have hf : findField ["kind", "name", "fields"] m.1 ≠ some "kind" := by simpa using hpm
            cases hf2 : findField ["kind", "name", "fields"] m.1 with
            | none => simp [decodeTypeMember, hf2]
            | some f =>
                have hm := findField_mem _ _ _ hf2
                simp only [List.mem_cons, List.mem_singleton, List.not_mem_nil, or_false] at hm
                rcases hm with rfl | rfl | rfl
                · exact absurd hf2 hf
                · simp [decodeTypeMember, hf2]
                · simp [decodeTypeMember, hf2])
          ms (.zero, none) rfl he (uniqueKeys_filter _ "kind" ms (by simp) hu)]
        rcases lookup_cases ["kind", "name", "fields"] "kind" ms with
          ⟨hfind, hl⟩ | ⟨m, hfind, hmem, hf, hl⟩
        · rw [hfind, hl]; rfl
        · rw [hfind, hl]
          exact decodeString_spec m.2 (by simpa [hf] using hconf m hmem)
      have hn : (ms.foldl decodeTypeMember (.zero, none)).1.name
          = specString (lookup ["kind", "name", "fields"] "name" ms) := by
        rw [foldl_member decodeTypeMember RawType.name
          (fun m => decide (findField ["kind", "name", "fields"] m.1 = some "name"))
          (fun x m => (decodeString m.2 x none).1)
          (fun s m hs hpm => by
            obtain ⟨x, e⟩ := s
            have hf : findField ["kind", "name", "fields"] m.1 = some "name" := by simpa using hpm
            simp only at hs
            subst hs
            simp [decodeTypeMember, hf])
          (fun s m hpm => by
            have hf : findField ["kind", "name", "fields"] m.1 ≠ some "name" := by simpa using hpm
            cases hf2 : findField ["kind", "name", "fields"] m.1 with
            | none => simp [decodeTypeMember, hf2]
            | some f =>
                have hm := findField_mem _ _ _ hf2
                simp only [List.mem_cons, List.mem_singleton, List.not_mem_nil, or_false] at hm
                rcases hm with rfl | rfl | rfl
                · simp [decodeTypeMember, hf2]
                · exact absurd hf2 hf
                · simp [decodeTypeMember, hf2])
          ms (.zero, none) rfl he (uniqueKeys_filter _ "name" ms (by simp) hu)]
        rcases lookup_cases ["kind", "name", "fields"] "name" ms with
          ⟨hfind, hl⟩ | ⟨m, hfind, hmem, hf, hl⟩
        · rw [hfind, hl]; rfl
        · rw [hfind, hl]
          exact decodeString_spec m.2 (by simpa [hf] using hconf m hmem)
      have hfs : (ms.foldl decodeTypeMember (.zero, none)).1.fields.elems.map RawField.toField
          = specSlice specField (lookup ["kind", "name", "fields"] "fields" ms) := by
        rw [foldl_member decodeTypeMember RawType.fields
          (fun m => decide (findField ["kind", "name", "fields"] m.1 = some "fields"))
          (fun x m => (decodeSlice decodeField .zero "[]main.GraphQLField" m.2 x none).1)
          (fun s m hs hpm => by
            obtain ⟨x, e⟩ := s
            have hf : findField ["kind", "name", "fields"] m.1 = some "fields" := by simpa using hpm
            simp only at hs
            subst hs
            simp [decodeTypeMember, hf])
          (fun s m hpm => by
            have hf : findField ["kind", "name", "fields"] m.1 ≠ some "fields" := by simpa using hpm
            cases hf2 : findField ["kind", "name", "fields"] m.1 with
            | none => simp [decodeTypeMember, hf2]
            | some f =>
                have hm := findField_mem _ _ _ hf2
                simp only [List.mem_cons, List.mem_singleton, List.not_mem_nil, or_false] at hm
                rcases hm with rfl | rfl | rfl
                · simp [decodeTypeMember, hf2]
                · simp [decodeTypeMember, hf2]
                · exact absurd hf2 hf)
          ms (.zero, none) rfl he (uniqueKeys_filter _ "fields" ms (by simp) hu)]
        rcases lookup_cases ["kind", "name", "fields"] "fields" ms with
          ⟨hfind, hl⟩ | ⟨m, hfind, hmem, hf, hl⟩
        · rw [hfind, hl]; rfl
        · rw [hfind, hl]
          exact decodeSlice_spec decodeField .zero "[]main.GraphQLField" conformsField
            uniqueField RawField.toField specField decodeField_ok
            (fun e h1 h2 => (decodeField_spec e h1 h2).2) m.2
            (by simpa [hf] using hconf m hmem) (by simpa [hf] using humem m hmem)
      refine ⟨h2, ?_⟩
      show (⟨(ms.foldl decodeTypeMember (.zero, none)).1.kind,
          (ms.foldl decodeTypeMember (.zero, none)).1.name,
          (ms.foldl decodeTypeMember (.zero, none)).1.fields.elems.map RawField.toField⟩
            : GraphQLType) = _
      rw [hk, hn, hfs]
      rfl

/-- The third `fields` array of `repeatedFields` is decoded over the backing
array the first one left: its second element, which has no `args`, is decoded
into the stale element `b` and keeps the argument `x`. -/
theorem decodeType_repeatedFields :
    (decodeType repeatedFields .zero none).1.toType
      = ⟨"", "", [⟨"d", [], .zero⟩, ⟨"e", [⟨"x", .zero⟩], .zero⟩]⟩ := by
  decide

theorem isEnvelope_repeatedDoc : IsEnvelope repeatedDoc [repeatedFields] := by
  have h1 : findField ["data"] "data" = some "data" := by decide
  have h2 : findField ["__schema"] "__schema" = some "__schema" := by decide
  have h3 : findField ["types"] "types" = some "types" := by decide
  refine ⟨[("data", .object [("__schema", .object [("types", .array [repeatedFields])])])],
    [("__schema", .object [("types", .array [repeatedFields])])],
    [("types", .array [repeatedFields])], rfl, ?_, ?_, ?_⟩
  · simp [HasOnly, h1]
  · simp [HasOnly, h2]
  · simp [HasOnly, h3]

theorem isEnvelope_serverDoc : IsEnvelope serverDoc serverTypes := by
  have h1 : findField ["data"] "data" = some "data" := by decide
  have h2 : findField ["__schema"] "__schema" = some "__schema" := by decide
  have h3 : findField ["types"] "types" = some "types" := by decide
  have h4 : findField ["types"] "queryType" ≠ some "types" := by decide
  refine ⟨[("data", .object [("__schema", .object
      [("queryType", .object [("name", .string "Query")]), ("types", .array serverTypes)])])],
    [("__schema", .object
      [("queryType", .object [("name", .string "Query")]), ("types", .array serverTypes)])],
    [("queryType", .object [("name", .string "Query")]), ("types", .array serverTypes)],
    rfl, ?_, ?_, ?_⟩
  · simp [HasOnly, h1]
  · simp [HasOnly, h2]
  · simp [HasOnly, h3, h4, List.filter_cons]

theorem tableParser_head (openFile : String → Except String Reader) (text : String) (v : JSON)
    (rest : List (String × JSON)) :
    (offlineEnv openFile (tableParser ((text, v) :: rest))).parseJSON text = .ok v := by
  simp [offlineEnv, tableParser]

theorem isEnvelope_encodeSchema (types : List GraphQLType) :
    IsEnvelope (encodeSchema types) (types.map encodeType) := by
  have h1 : findField ["data"] "data" = some "data" := by decide
  have h2 : findField ["__schema"] "__schema" = some "__schema" := by decide
  have h3 : findField ["types"] "types" = some "types" := by decide
  refine ⟨[("data", .object [("__schema", .object [("types", .array (types.map encodeType))])])],
    [("__schema", .object [("types", .array (types.map encodeType))])],
    [("types", .array (types.map encodeType))], rfl, ?_, ?_, ?_⟩
  · simp [HasOnly, h1]
  · simp [HasOnly, h2]
  · simp [HasOnly, h3]

/-! ## Claims -/

/-- C1: for every type name, field name, non-empty argument list and word, the
query built by `fuzzGraphQL` is exactly the specified text, with every argument
bound to the same word as a double-quoted string and the bindings joined by a
comma and a blank in declaration order; it depends on the names of the type, of
the field and of the arguments only, not on any declared type. -/
theorem C1_query_format (t : GraphQLType) (field : GraphQLField) (W : String)
    (hargs : field.args ≠ []) :
    fuzzedQuery t field W
        = "\x7b " ++ t.name ++ "(" ++ specBindings W (field.args.map (·.name)) ++ ") \x7b "
            ++ field.name ++ " \x7d \x7d"
      ∧ ∀ (t2 : GraphQLType) (field2 : GraphQLField),
          t2.name = t.name → field2.name = field.name →
          field2.args.map (·.name) = field.args.map (·.name) →
          fuzzedQuery t2 field2 W = fuzzedQuery t field W := by
  have _ := hargs
  refine ⟨fuzzedQuery_eq t field W, ?_⟩
  intro t2 field2 h1 h2 h3
  rw [fuzzedQuery_eq, fuzzedQuery_eq, h1, h2, h3]

/-- C1, witness: type `User`, field `getName` with the argument `id` and the
word `x` give the query of the specification, whatever the declared types. -/
theorem C1_query_format_witness :
    fuzzedQuery ⟨"OBJECT", "User", []⟩ ⟨"getName", [⟨"id", .zero⟩], .zero⟩ "x"
        = "\x7b User(id: \"x\") \x7b getName \x7d \x7d"
      ∧ fuzzedQuery ⟨"SCALAR", "User", []⟩
          ⟨"getName", [⟨"id", .mk "NON_NULL" "" (some (.mk "SCALAR" "Int" none))⟩],
            .mk "SCALAR" "Boolean" none⟩ "x"
        = fuzzedQuery ⟨"OBJECT", "User", []⟩ ⟨"getName", [⟨"id", .zero⟩], .zero⟩ "x" :=
  ⟨(C1_query_format ⟨"OBJECT", "User", []⟩ ⟨"getName", [⟨"id", .zero⟩], .zero⟩ "x"
      (by decide)).1.trans (by decide),
   (C1_query_format ⟨"OBJECT", "User", []⟩ ⟨"getName", [⟨"id", .zero⟩], .zero⟩ "x"
      (by decide)).2 _ _ rfl rfl rfl⟩

/-- C2: for a field without arguments the query is the type name, empty
parentheses and the field name, the same for every word; a fuzz target with
that field and a word list of `n ≥ 1` words is sent `n` identical queries. -/
theorem C2_empty_args (t : GraphQLType) (field : GraphQLField) (W : String)
    (hargs : field.args = []) :
    fuzzedQuery t field W = "\x7b " ++ t.name ++ "() \x7b " ++ field.name ++ " \x7d \x7d"
      ∧ (∀ W2 : String, fuzzedQuery t field W2 = fuzzedQuery t field W)
      ∧ ∀ {σ : Type} (env : Env σ) (url : String) (wordlist : List String) (net : σ),
          IsTarget t → t.fields = [field] → wordlist ≠ [] →
          queriesOf (fuzzGraphQL env url [t] wordlist ⟨net, []⟩).trace
            = List.replicate wordlist.length
                ("\x7b " ++ t.name ++ "() \x7b " ++ field.name ++ " \x7d \x7d") := by
  have hq : ∀ V : String,
      fuzzedQuery t field V = "\x7b " ++ t.name ++ "() \x7b " ++ field.name ++ " \x7d \x7d" := by
    intro V
    rw [fuzzedQuery_eq, hargs]
    simp only [specQuery, List.map_nil, specBindings, String.append_empty]
    apply String.ext
    simp
  refine ⟨hq W, fun W2 => by rw [hq, hq], ?_⟩
  intro σ env url wordlist net ht hf hw
  rw [fuzzGraphQL_queries]
  simp only [crossProduct, List.filter_cons, ht, decide_True, if_true, List.filter_nil,
    List.flatMap_cons, List.flatMap_nil, hf, List.append_nil, effectiveWords, hw, if_false, hq]
  simp [queriesOf, List.eq_replicate_iff]

/-- C2, witness: type `User`, field `getName` without arguments; the word `x`
gives the query with empty parentheses, and three words give it three times. -/
theorem C2_empty_args_witness :
    fuzzedQuery ⟨"OBJECT", "User", [⟨"getName", [], .zero⟩]⟩ ⟨"getName", [], .zero⟩ "x"
        = "\x7b User() \x7b getName \x7d \x7d"
      ∧ queriesOf (fuzzGraphQL emptyEnv "http://h"
            [⟨"OBJECT", "User", [⟨"getName", [], .zero⟩]⟩] ["a", "b", "c"] ⟨(), []⟩).trace
          = ["\x7b User() \x7b getName \x7d \x7d", "\x7b User() \x7b getName \x7d \x7d",
              "\x7b User() \x7b getName \x7d \x7d"] :=
  ⟨(C2_empty_args ⟨"OBJECT", "User", [⟨"getName", [], .zero⟩]⟩ ⟨"getName", [], .zero⟩ "x"
      rfl).1.trans (by decide),
   ((C2_empty_args ⟨"OBJECT", "User", [⟨"getName", [], .zero⟩]⟩ ⟨"getName", [], .zero⟩ "x"
      rfl).2.2 emptyEnv "http://h" ["a", "b", "c"] () (by decide) rfl (by decide)).trans
      (by decide)⟩

/-- C3: the queries `fuzzGraphQL` passes to `sendQuery` are exactly the ordered
cross-product of the fuzz targets in input order, their fields in declaration
order and the words of the effective word list in order; their number is the
number of fields of fuzz targets times the number of effective words. -/
theorem C3_cross_product {σ : Type} (env : Env σ) (url : String) (types : List GraphQLType)
    (wordlist : List String) (w : World σ) :
    queriesOf (fuzzGraphQL env url types wordlist w).trace
        = queriesOf w.trace ++
            ((types.filter fun t => decide (IsTarget t)).flatMap fun t =>
              t.fields.flatMap fun field =>
                (effectiveWords wordlist).map fun W => fuzzedQuery t field W)
      ∧ (queriesOf (fuzzGraphQL env url types wordlist w).trace).length
        = (queriesOf w.trace).length
          + ((types.filter fun t => decide (IsTarget t)).map fun t => t.fields.length).sum
              * (effectiveWords wordlist).length := by
  constructor
  · exact fuzzGraphQL_queries env url types wordlist w
  · rw [fuzzGraphQL_queries, List.length_append, crossProduct_length]

/-- C4: a type contributes queries exactly when its kind is `OBJECT` and its
name is neither `Query` nor `Mutation`: deleting every other type from the list
leaves the queries sent unchanged, a list of such other types sends no query
whatever their fields, and a fuzz target with a field sends at least one. -/
theorem C4_targets_only {σ : Type} (env : Env σ) (url : String) (types : List GraphQLType)
    (wordlist : List String) (w : World σ) :
    queriesOf (fuzzGraphQL env url
        (types.filter fun t =>
          decide (t.kind = "OBJECT" ∧ t.name ≠ "Query" ∧ t.name ≠ "Mutation")) wordlist w).trace
        = queriesOf (fuzzGraphQL env url types wordlist w).trace
      ∧ ((∀ t ∈ types, ¬ (t.kind = "OBJECT" ∧ t.name ≠ "Query" ∧ t.name ≠ "Mutation")) →
          queriesOf (fuzzGraphQL env url types wordlist w).trace = queriesOf w.trace)
      ∧ ∀ t : GraphQLType, t.kind = "OBJECT" → t.name ≠ "Query" → t.name ≠ "Mutation" →
          t.fields ≠ [] →
          queriesOf (fuzzGraphQL env url [t] wordlist w).trace ≠ queriesOf w.trace := by
  refine ⟨?_, ?_, ?_⟩
  · rw [fuzzGraphQL_queries, fuzzGraphQL_queries]
    exact congrArg _ (crossProduct_filter types wordlist)
  · intro h
    rw [fuzzGraphQL_queries, crossProduct_no_target types wordlist h, List.append_nil]
  · intro t h1 h2 h3 hf
    rw [fuzzGraphQL_queries]
    intro h
    exact crossProduct_target t wordlist ⟨h1, h2, h3⟩ hf (List.append_right_eq_self.mp h)

/-- C4, witness: the interface `Node`, the objects `Query` and `Mutation` and the
lower-case kind `object` send nothing although each has a field; the object
`User` sends a query. -/
theorem C4_targets_only_witness :
    queriesOf (fuzzGraphQL emptyEnv "u"
        [⟨"INTERFACE", "Node", [⟨"id", [], .zero⟩]⟩, ⟨"OBJECT", "Query", [⟨"me", [], .zero⟩]⟩,
          ⟨"OBJECT", "Mutation", [⟨"set", [], .zero⟩]⟩, ⟨"object", "User", [⟨"n", [], .zero⟩]⟩]
        ["a"] ⟨(), []⟩).trace = []
      ∧ queriesOf (fuzzGraphQL emptyEnv "u" [⟨"OBJECT", "User", [⟨"n", [], .zero⟩]⟩]
          ["a"] ⟨(), []⟩).trace ≠ [] :=
  ⟨(C4_targets_only emptyEnv "u" _ ["a"] ⟨(), []⟩).2.1 (by decide),
   (C4_targets_only emptyEnv "u" [] ["a"] ⟨(), []⟩).2.2 ⟨"OBJECT", "User", [⟨"n", [], .zero⟩]⟩
      rfl (by decide) (by decide) (by decide)⟩

/-- C5: called with no word list, `fuzzGraphQL` does exactly what it does with
the one-element word list of the empty string: every field of every fuzz target
is queried once, every argument bound to the empty string; and this is the call
`main` makes when the flag `--wordlist` is absent. -/
theorem C5_absent_wordlist {σ : Type} (env : Env σ) (url : String) (types : List GraphQLType)
    (w : World σ) :
    fuzzGraphQL env url types [] w = fuzzGraphQL env url types [""] w
      ∧ queriesOf (fuzzGraphQL env url types [] w).trace
        = queriesOf w.trace ++
            ((types.filter fun t => decide (IsTarget t)).flatMap fun t =>
              t.fields.map fun field =>
                specQuery t.name field.name (field.args.map (·.name)) "")
      ∧ ∀ flags : Flags, flags.endpoint ≠ "" → flags.gqlFile ≠ "" → flags.wordlistPath = "" →
          main env flags w = mainFuzz env flags [] w := by
  refine ⟨?_, ?_, ?_⟩
  · unfold fuzzGraphQL fuzzType
    rw [fuzzField_nil_wordlist]
  · rw [fuzzGraphQL_queries]
    simp [crossProduct, effectiveWords, fuzzedQuery_eq, flatMap_singleton_map]
  · intro flags h1 h2 h3
    simp [main, h1, h2, h3]

/-- C5, witness: a run of `main` without the flag `--wordlist`. -/
theorem C5_absent_wordlist_witness :
    main emptyEnv ⟨"http://h", "schema.json", ""⟩ ⟨(), []⟩
      = mainFuzz emptyEnv ⟨"http://h", "schema.json", ""⟩ [] ⟨(), []⟩ :=
  (C5_absent_wordlist emptyEnv "http://h" [] ⟨(), []⟩).2.2 ⟨"http://h", "schema.json", ""⟩
    (by decide) (by decide) rfl

/-- C6, as amended: for every sequence of strings none of which contains a line
feed, ends with a carriage return or is 65536 bytes long or longer,
`readWordlist` applied to a file whose content is those strings, each written
as one line, returns exactly that sequence with no error, blank lines kept as
empty strings. -/
theorem C6_wordlist_round_trip {σ : Type} (env : Env σ) (filePath : String) (w : World σ)
    (lines : List String)
    (hfile : env.openFile filePath = .ok ⟨linesFile lines, none⟩)
    (hlines : ∀ l ∈ lines,
      '\n' ∉ l.toList ∧ l.toList.getLast? ≠ some '\r' ∧ l.utf8ByteSize < MaxScanTokenSize) :
    (readWordlist env filePath w).1 = .ok lines := by
  have hloop := scanLoop_lines none lines
    (fun l hl => ⟨(hlines l hl).1, by rw [← utf8ByteSize_eq]; exact (hlines l hl).2.2⟩)
    ((linesFile lines).length + 1) [] (Nat.lt_succ_of_le (linesFile_length lines))
  have hmap : (lines.map fun l => String.mk (dropCR l.toList)) = lines := by
    conv_rhs => rw [← List.map_id lines]
    apply List.map_congr_left
    intro l hl
    rw [dropCR_of_no_cr _ (hlines l hl).2.1]
    rfl
  simp only [readWordlist, hfile, NewScanner, linesFile_toList, hloop, List.nil_append, hmap]

/-- C6 as amended, witness: the lines `a`, a blank line and `b`. -/
theorem C6_wordlist_round_trip_witness :
    (readWordlist (offlineEnv (fun _ => .ok ⟨linesFile ["a", "", "b"], none⟩)
        (tableParser [])) "words.txt" ⟨(), []⟩).1 = .ok ["a", "", "b"] :=
  C6_wordlist_round_trip _ "words.txt" ⟨(), []⟩ ["a", "", "b"] rfl (by decide)

/-- C6 as stated fails: a line that ends with a carriage return contains no line
feed, and is returned without its carriage return; a line of 65536 bytes
contains no line feed, and is answered by an error. -/
theorem C6_counterexample :
    ('\n' ∉ "a\r".toList
      ∧ (readWordlist (offlineEnv (fun _ => .ok ⟨linesFile ["a\r"], none⟩)
            (tableParser [])) "words.txt" ⟨(), []⟩).1 = .ok ["a"]
      ∧ (readWordlist (offlineEnv (fun _ => .ok ⟨linesFile ["a\r"], none⟩)
            (tableParser [])) "words.txt" ⟨(), []⟩).1 ≠ .ok ["a\r"])
    ∧ ('\n' ∉ (String.mk (List.replicate 65536 'a')).toList
      ∧ (readWordlist (offlineEnv
            (fun _ => .ok ⟨linesFile [String.mk (List.replicate 65536 'a')], none⟩)
            (tableParser [])) "words.txt" ⟨(), []⟩).1
          = .error "error reading wordlist: bufio.Scanner: token too long") := by
  have hmem : '\n' ∉ List.replicate 65536 'a' := fun h => by
    have := (List.mem_replicate.mp h).2
    exact absurd this (by decide)
  have hcr : (readWordlist (offlineEnv (fun _ => .ok ⟨linesFile ["a\r"], none⟩)
      (tableParser [])) "words.txt" ⟨(), []⟩).1 = .ok ["a"] := by
    have hloop := scanLoop_lines none ["a\r"] (by decide) ((linesFile ["a\r"]).length + 1) []
      (Nat.lt_succ_of_le (linesFile_length _))
    simp only [readWordlist, offlineEnv, NewScanner, linesFile_toList, hloop]
    exact congrArg Except.ok (by decide)
  refine ⟨⟨by decide, hcr, ?_⟩, ⟨hmem, ?_⟩⟩
  · rw [hcr]
    intro h
    injection h with h
    exact absurd h (by decide)
  · exact readWordlist_too_long _ "words.txt" _ _ (List.replicate 65536 'a') [] rfl
      (by
        rw [linesFile_toList, List.flatMap_cons, List.flatMap_nil, List.append_nil]
        simp only [String.toList])
      hmem
      (by rw [byteLen_replicate_a]; decide)

/-- C7: for a schema file whose content is valid JSON of the shape of the
introspection envelope, with the array `[t1, ..., tn]` of values fit for a type
under `data.__schema.types`, `readSchemaFromFile` returns without error exactly
`n` types, the `i`-th decoded from `ti`, in the order of the file. When no
object of `ti` gives a member twice, the `i`-th type has the kind, the name and
the fields `ti` says, read from it by key; and when the `ti` are the JSON texts
of a list of types, that list is returned. -/
theorem C7_schema_types {σ : Type} (env : Env σ) (filePath : String) (w : World σ)
    (content : String) (v : JSON) (ts : List JSON)
    (hfile : env.openFile filePath = .ok ⟨content, none⟩)
    (hparse : env.parseJSON content = .ok v)
    (hshape : IsEnvelope v ts)
    (hts : ∀ t ∈ ts, conformsType t = true) :
    (readSchemaFromFile env filePath w).1
        = .ok (ts.map fun t => (decodeType t .zero none).1.toType)
      ∧ (ts.map fun t => (decodeType t .zero none).1.toType).length = ts.length
      ∧ (∀ (i : Nat) (t : JSON), ts[i]? = some t → uniqueType t = true →
          (ts.map fun t => (decodeType t .zero none).1.toType)[i]? = some (specType t))
      ∧ ((∀ t ∈ ts, uniqueType t = true) →
          (readSchemaFromFile env filePath w).1 = .ok (ts.map specType))
      ∧ ∀ types : List GraphQLType, ts = types.map encodeType →
          (readSchemaFromFile env filePath w).1 = .ok types := by
  have hres : (readSchemaFromFile env filePath w).1
      = .ok (ts.map fun t => (decodeType t .zero none).1.toType) := by
    simp only [readSchemaFromFile, hfile, ReadAll, Unmarshal, hparse,
      decodeSchema_envelope v ts hshape hts, List.map_map]
    rfl
  refine ⟨hres, List.length_map _ _, ?_, ?_, ?_⟩
  · intro i t hi hu
    rw [List.getElem?_map, hi]
    exact congrArg some (decodeType_spec t (hts t (List.getElem?_mem hi)) hu).2
  · intro hu
    rw [hres]
    exact congrArg Except.ok
      (List.map_congr_left fun t ht => (decodeType_spec t (hts t ht) (hu t ht)).2)
  · intro types hty
    rw [hres, hty, List.map_map]
    congr 1
    conv_rhs => rw [← List.map_id types]
    exact List.map_congr_left fun t _ => toType_decodeType_encode t

/-- C7, witness: the envelope of the types `User` and `Query` is read back as
these two types, in this order; a response as a server writes it, with members
in another order, members that are not read and `null` values, is read as the
scalar `Int` without fields and the object `User` with its field; and a type
that gives `fields` three times is read as one type, whose second field `e` is
decoded over the stale field `b` and keeps its argument `x`. -/
theorem C7_schema_types_witness :
    (readSchemaFromFile
        (offlineEnv (fun _ => .ok ⟨schemaText, none⟩)
          (tableParser [(schemaText, encodeSchema [userType, queryType])]))
        "schema.json" ⟨(), []⟩).1 = .ok [userType, queryType]
    ∧ (readSchemaFromFile
        (offlineEnv (fun _ => .ok ⟨serverText, none⟩) (tableParser [(serverText, serverDoc)]))
        "schema.json" ⟨(), []⟩).1
      = .ok [⟨"SCALAR", "Int", []⟩,
          ⟨"OBJECT", "User",
            [⟨"getName", [], .mk "NON_NULL" "" (some (.mk "SCALAR" "String" none))⟩]⟩]
    ∧ (readSchemaFromFile
        (offlineEnv (fun _ => .ok ⟨repeatedText, none⟩)
          (tableParser [(repeatedText, repeatedDoc)]))
        "schema.json" ⟨(), []⟩).1
      = .ok [⟨"", "", [⟨"d", [], .zero⟩, ⟨"e", [⟨"x", .zero⟩], .zero⟩]⟩] :=
  ⟨(C7_schema_types
      (offlineEnv (fun _ => .ok ⟨schemaText, none⟩)
        (tableParser [(schemaText, encodeSchema [userType, queryType])]))
      "schema.json" ⟨(), []⟩ schemaText (encodeSchema [userType, queryType])
      ([userType, queryType].map encodeType) rfl
      (tableParser_head _ schemaText (encodeSchema [userType, queryType]) [])
      (isEnvelope_encodeSchema [userType, queryType]) (by decide)).2.2.2.2
        [userType, queryType] rfl,
   ((C7_schema_types
      (offlineEnv (fun _ => .ok ⟨serverText, none⟩) (tableParser [(serverText, serverDoc)]))
      "schema.json" ⟨(), []⟩ serverText serverDoc serverTypes rfl
      (tableParser_head _ serverText serverDoc []) isEnvelope_serverDoc
      (by decide)).2.2.2.1 (by decide)).trans (congrArg Except.ok (by decide)),
   (C7_schema_types
      (offlineEnv (fun _ => .ok ⟨repeatedText, none⟩)
        (tableParser [(repeatedText, repeatedDoc)]))
      "schema.json" ⟨(), []⟩ repeatedText repeatedDoc [repeatedFields] rfl
      (tableParser_head _ repeatedText repeatedDoc []) isEnvelope_repeatedDoc
      (by decide)).1.trans (congrArg Except.ok (by decide))⟩

/-- C8, as amended: `readSchemaFromFile` returns an error and no types whenever
the content of the file is not valid JSON, or is valid JSON in which a value
the decoder stores is neither `null` nor of the JSON kind of its Go member; for
any other valid JSON it returns a type list, the empty one when the document is
an object without the key `data`. -/
theorem C8_schema_errors {σ : Type} (env : Env σ) (filePath : String) (w : World σ)
    (content : String) (hfile : env.openFile filePath = .ok ⟨content, none⟩) :
    (∀ e, env.parseJSON content = .error e →
        (readSchemaFromFile env filePath w).1 = .error ("error unmarshalling schema JSON: " ++ e))
      ∧ (∀ v, env.parseJSON content = .ok v → conformsSchema v = false →
          ∃ e, (readSchemaFromFile env filePath w).1
            = .error ("error unmarshalling schema JSON: " ++ e))
      ∧ (∀ v, env.parseJSON content = .ok v → conformsSchema v = true →
          ∃ types, (readSchemaFromFile env filePath w).1 = .ok types)
      ∧ ∀ ms, env.parseJSON content = .ok (.object ms) →
          (∀ m ∈ ms, findField ["data"] m.1 ≠ some "data") →
          (readSchemaFromFile env filePath w).1 = .ok [] := by
  refine ⟨?_, ?_, ?_, ?_⟩
  · intro e he
    simp only [readSchemaFromFile, hfile, ReadAll, Unmarshal, he]
  · intro v hv hc
    cases hd : (decodeSchema v Slice.nil none).2 with
    | none =>
        have := ((decodeSchema_ok v Slice.nil none).mp hd).2
        rw [hc] at this
        cases this
    | some e =>
        exact ⟨e, by simp only [readSchemaFromFile, hfile, ReadAll, Unmarshal, hv, hd]⟩
  · intro v hv hc
    have hd := (decodeSchema_ok v Slice.nil none).mpr ⟨rfl, hc⟩
    exact ⟨(decodeSchema v Slice.nil none).1.elems.map RawType.toType,
      by simp only [readSchemaFromFile, hfile, ReadAll, Unmarshal, hv, hd]⟩
  · intro ms hv hms
    have hd : decodeSchema (.object ms) Slice.nil none = (Slice.nil, none) := by
      show ms.foldl _ _ = _
      rw [foldl_ite_filter (fun m : String × JSON => findField ["data"] m.1 = some "data")
        (fun s m => decodeWrapper "__schema" "struct" _ m.2 s.1 s.2),
        List.filter_eq_nil_iff.mpr (by simpa using hms)]
      rfl
    simp only [readSchemaFromFile, hfile, ReadAll, Unmarshal, hv, hd]
    rfl

/-- C8 as amended, witness: a file that is not JSON and a file whose document is
an array are answered by an error. -/
theorem C8_schema_errors_witness :
    (readSchemaFromFile (offlineEnv (fun _ => .ok ⟨"not json", none⟩) (tableParser []))
        "schema.json" ⟨(), []⟩).1
      = .error ("error unmarshalling schema JSON: "
          ++ "invalid character looking for beginning of value")
    ∧ ∃ e, (readSchemaFromFile
        (offlineEnv (fun _ => .ok ⟨"[]", none⟩) (tableParser [("[]", .array [])]))
        "schema.json" ⟨(), []⟩).1 = .error ("error unmarshalling schema JSON: " ++ e) :=
  ⟨(C8_schema_errors (offlineEnv (fun _ => .ok ⟨"not json", none⟩) (tableParser []))
      "schema.json" ⟨(), []⟩ "not json" rfl).1 _ rfl,
   (C8_schema_errors (offlineEnv (fun _ => .ok ⟨"[]", none⟩) (tableParser [("[]", .array [])]))
      "schema.json" ⟨(), []⟩ "[]" rfl).2.1 (.array []) rfl rfl⟩

/-- C8 as stated fails: a JSON object without the key `data`, without the key
`__schema` or without the key `types` is read successfully as the empty type
list. -/
theorem C8_counterexample :
    (readSchemaFromFile
        (offlineEnv (fun _ => .ok ⟨"\x7b\x7d", none⟩) (tableParser [("\x7b\x7d", .object [])]))
        "schema.json" ⟨(), []⟩).1 = .ok []
    ∧ (readSchemaFromFile
        (offlineEnv (fun _ => .ok ⟨"\x7b\"data\":\x7b\x7d\x7d", none⟩)
          (tableParser [("\x7b\"data\":\x7b\x7d\x7d", .object [("data", .object [])])]))
        "schema.json" ⟨(), []⟩).1 = .ok []
    ∧ (readSchemaFromFile
        (offlineEnv (fun _ => .ok ⟨"\x7b\"data\":\x7b\"__schema\":\x7b\x7d\x7d\x7d", none⟩)
          (tableParser [("\x7b\"data\":\x7b\"__schema\":\x7b\x7d\x7d\x7d",
            .object [("data", .object [("__schema", .object [])])])]))
        "schema.json" ⟨(), []⟩).1 = .ok [] := by
  refine ⟨?_, ?_, ?_⟩ <;> rfl

/-- C9: whatever `sendQuery` returns, `fuzzGraphQL` attempts every query of the
cross-product, in order: the queries attempted are the same in every
environment. Each attempt has exactly one report, written right after it and
before the next attempt: the error line with the error `sendQuery` returned on
that query, or the query with the response `sendQuery` returned on it. So at
every index `k` of the cross-product, whatever `sendQuery` returned at `k` and
before, the `k`-th query is attempted and the `k`-th text written is its
report. -/
theorem C9_failures_isolated {σ : Type} (env : Env σ) (url : String)
    (types : List GraphQLType) (wordlist : List String) (net : σ) :
    queriesOf (fuzzGraphQL env url types wordlist ⟨net, []⟩).trace
        = crossProduct types wordlist
      ∧ (∀ {τ : Type} (env2 : Env τ) (net2 : τ),
          queriesOf (fuzzGraphQL env2 url types wordlist ⟨net2, []⟩).trace
            = queriesOf (fuzzGraphQL env url types wordlist ⟨net, []⟩).trace)
      ∧ (outcomes env url (crossProduct types wordlist) net).length
          = (crossProduct types wordlist).length
      ∧ stdoutOf (fuzzGraphQL env url types wordlist ⟨net, []⟩).trace
          = List.zipWith (reportOf env) (crossProduct types wordlist)
              (outcomes env url (crossProduct types wordlist) net)
      ∧ attemptsOf (fuzzGraphQL env url types wordlist ⟨net, []⟩).trace
          = ((crossProduct types wordlist).zip
              (outcomes env url (crossProduct types wordlist) net)).flatMap
              (fun p => [.sendQuery url p.1, .stdout (reportOf env p.1 p.2)])
      ∧ ∀ (k : Nat) (q : String) (r : Except String GraphQLResponse),
          (crossProduct types wordlist)[k]? = some q →
          (outcomes env url (crossProduct types wordlist) net)[k]? = some r →
          (queriesOf (fuzzGraphQL env url types wordlist ⟨net, []⟩).trace)[k]? = some q
            ∧ (stdoutOf (fuzzGraphQL env url types wordlist ⟨net, []⟩).trace)[k]?
                = some (reportOf env q r) := by
  have hq : queriesOf (fuzzGraphQL env url types wordlist ⟨net, []⟩).trace
      = crossProduct types wordlist := by
    rw [fuzzGraphQL_queries]; rfl
  obtain ⟨h1, h2⟩ := foldl_fuzzOne_reports env url (crossTriples types wordlist) ⟨net, []⟩
  rw [crossTriples_queries] at h1 h2
  have hout : stdoutOf (fuzzGraphQL env url types wordlist ⟨net, []⟩).trace
      = List.zipWith (reportOf env) (crossProduct types wordlist)
          (outcomes env url (crossProduct types wordlist) net) := by
    rw [fuzzGraphQL_flat, h1]; rfl
  refine ⟨hq, ?_, outcomes_length env url _ net, hout, ?_, ?_⟩
  · intro τ env2 net2
    rw [hq, fuzzGraphQL_queries]; rfl
  · rw [fuzzGraphQL_flat, h2]; rfl
  · intro k q r hk hr
    rw [hq, hout]
    exact ⟨hk, List.getElem?_zipWith_eq_some.mpr ⟨q, r, hk, hr, rfl⟩⟩

/-- C9, witness: the first connection is refused and the second request is
answered; both queries are attempted, the first is reported by the error line
with that error, the second by the query with its response. -/
theorem C9_failures_isolated_witness :
    queriesOf (fuzzGraphQL flakyEnv "http://h" [userType] ["a", "b"] ⟨0, []⟩).trace
        = ["\x7b User(id: \"a\") \x7b getName \x7d \x7d",
            "\x7b User(id: \"b\") \x7b getName \x7d \x7d"]
      ∧ stdoutOf (fuzzGraphQL flakyEnv "http://h" [userType] ["a", "b"] ⟨0, []⟩).trace
        = ["Error sending fuzzed request: error sending request: connection refused\n",
            "Fuzzed Query: \x7b User(id: \"b\") \x7b getName \x7d \x7d\n" ++
              "Response: &\x7b<nil> <nil>\x7d\n"] :=
  ⟨(C9_failures_isolated flakyEnv "http://h" [userType] ["a", "b"] 0).1.trans (by decide),
   (C9_failures_isolated flakyEnv "http://h" [userType] ["a", "b"] 0).2.2.2.1.trans
    (by decide)⟩

/-- C10: when the endpoint flag or the schema flag is empty, `main` prints the
required-flags line and the usage and returns: it opens no file, calls neither
`sendQuery` nor `http.Post`, and leaves the network as it was. -/
theorem C10_missing_flags {σ : Type} (env : Env σ) (flags : Flags) (w : World σ)
    (h : flags.endpoint = "" ∨ flags.gqlFile = "") :
    main env flags w
      = ⟨w.net, w.trace ++
          [.stdout "Both --endpoint and --gqlfile flags are required.\n", .usage]⟩ := by
  have hb : (flags.endpoint == "" || flags.gqlFile == "") = true := by
    rcases h with h | h <;> simp [h]
  simp [main, hb, World.emit]

/-- C10, witness: an endpoint without a schema file, with a word list. -/
theorem C10_missing_flags_witness :
    (main emptyEnv ⟨"http://h", "", "words.txt"⟩ ⟨(), []⟩).trace
      = [.stdout "Both --endpoint and --gqlfile flags are required.\n", .usage] :=
  congrArg World.trace
    (C10_missing_flags emptyEnv ⟨"http://h", "", "words.txt"⟩ ⟨(), []⟩ (Or.inr rfl))

end GraphQLFuzz
